import Mathlib

/-!
Verification model of the cross-file call-graph builder of the `docgen`
repository (modules `src/call_graph/graph.rs`, `src/call_graph/import.rs`,
`src/call_graph/manifest.rs`, `src/utils/mod.rs`).

The Rust code is shallowly embedded as executable Lean definitions:

* file-system paths (`std::path::PathBuf`) are lists of components;
* the file system is a pair of oracles (`Path::exists`, read-and-parse of
  `fs::read_to_string` + `syn::parse_file`);
* `HashMap` registries are association lists whose `insert` prepends
  (lookup finds the most recent binding, matching `HashMap` overwrite
  semantics);
* `petgraph::DiGraph<String, Edge>` is a list of node payloads (the node
  index is the position, as `Graph::add_node` allocates indices in
  insertion order) together with a list of index pairs;
* Rust panics (`todo!`, `unwrap`, slice-range panics, arithmetic overflow)
  and `anyhow` errors are distinguished constructors of `RunErr`;
* the mutually recursive visitors (`CallGraphBuilder`, `FunctionCallBuilder`)
  are fuel-indexed mutually recursive functions; exhausting the fuel yields
  the distinguished result `RunErr.fuelOut`, so a non-`fuelOut` result is the
  result of the unbounded Rust recursion;
* the builders' `self.error` fields (which store an `anyhow` error and let
  scanning continue) are threaded `Option String` values, while panics and
  fuel exhaustion short-circuit through `Except`;
* reads of files are recorded in a `files_read` trace so that claims about
  "no file-system access" are expressible.

Anything printed with `println!` (the `Printer` trait, debug traces) has no
effect on the data and is not modelled.
-/

/-- Equality of `Except` results is decidable when both components are;
used to evaluate the model on concrete fixtures. -/
instance exceptDecEq {ε α : Type} [DecidableEq ε] [DecidableEq α] :
    DecidableEq (Except ε α) := fun x y =>
  match x, y with
  | .error a, .error b =>
    if h : a = b then .isTrue (by rw [h]) else .isFalse (fun c => by cases c; exact h rfl)
  | .ok a, .ok b =>
    if h : a = b then .isTrue (by rw [h]) else .isFalse (fun c => by cases c; exact h rfl)
  | .error _, .ok _ => .isFalse (fun c => by cases c)
  | .ok _, .error _ => .isFalse (fun c => by cases c)

namespace Docgen

/-- One component of a `PathBuf` (`Path::iter` yields the components). -/
abbrev FsPath := List String

/-- `Path::parent`: drop the last component; `None` on the empty path. -/
def parentDir : FsPath → Option FsPath
  | [] => none
  | p => some p.dropLast

/-- `Path::ancestors`: the path itself, then each parent up to the empty
path, i.e. the reversed list of prefixes. -/
def ancestorsOf (p : FsPath) : List FsPath :=
  p.inits.reverse

/-- `Vec::join("::")` / `Path` components joined by `::`. -/
def joinColons (segs : List String) : String :=
  String.intercalate "::" segs

/-- The loop of Rust's `str::replace`: replace the leftmost occurrence of
`pat`, continue after the replacement, never re-examining replaced text.
The fuel is the remaining length plus one, so it never runs out. -/
def replaceLoop (pat rep : List Char) (fuel : Nat) (s : List Char) : List Char :=
  match fuel with
  | 0 => s
  | fuel + 1 =>
    match s with
    | [] => []
    | c :: rest =>
      if pat ≠ [] ∧ pat.isPrefixOf (c :: rest) then
        rep ++ replaceLoop pat rep fuel ((c :: rest).drop pat.length)
      else
        c :: replaceLoop pat rep fuel rest

/-- Rust's `str::replace` (all non-overlapping occurrences, left to
right), written over the character list so that it evaluates inside the
kernel. -/
def rust_replace (s pat rep : String) : String :=
  ⟨replaceLoop pat.data rep.data (s.data.length + 1) s.data⟩

/-- `proc_macro2::LineColumn`. -/
structure LineColumn where
  line : Nat
  column : Nat
deriving DecidableEq, Repr

/-- A source span (`Spanned::span`, giving `start()` and `end()`;
the `end` field is called `stop` because `end` is a Lean keyword). -/
structure Span where
  start : LineColumn
  stop : LineColumn
deriving DecidableEq, Repr

/-- `syn::UseTree`, restricted to the constructors the code inspects.
`glob` and `rename` are the two forms the code refuses (`todo!`). -/
inductive UseTree where
  | path (ident : String) (tree : UseTree)
  | group (items : List UseTree)
  | name (ident : String)
  | glob
  | rename (ident : String) (rename_to : String)

/-- The expressions the call-site walker distinguishes: call expressions
`f(...)` with a callee expression and arguments, path expressions, and
method-call-syntax expressions `x.m(...)` (which the walker deliberately
does not resolve). Blocks are modelled as lists of statement expressions;
`let` statements and nested items inside bodies are outside the model
(the code only prints `let` statements). -/
inductive Expr where
  | callE (func : Expr) (args : List Expr) (span : Span)
  | pathE (segments : List String) (span : Span)
  | methodCallE (receiver : Expr) (method : String) (args : List Expr) (span : Span)

/-- `syn::ItemFn`: a top-level function with its identifier and body. -/
structure ItemFn where
  ident : String
  block : List Expr
  span : Span

/-- `syn::ImplItemFn`: a method inside an `impl` block. -/
structure ImplItemFn where
  ident : String
  block : List Expr
  span : Span

/-- `syn::ImplItem`: either a method or some other impl item. -/
inductive ImplItem where
  | fnItem (f : ImplItemFn)
  | otherItem

/-- `syn::ItemImpl`: the self type's path segments and the impl items.
A non-path self type is modelled by an empty segment list (the code
guards on `Type::Path` and on `segments.last()`). -/
structure ItemImpl where
  self_ty : List String
  items : List ImplItem

/-- The three kinds of `syn::Item` the visitor overrides; all other items
are visited without effect. -/
inductive Item where
  | useItem (tree : UseTree)
  | fnItem (f : ItemFn)
  | implItem (i : ItemImpl)

/-- A parsed `syn::File`. -/
structure RustFile where
  items : List Item

/-- The file-system oracle: `pathExists` models `Path::exists`, and
`readFile` models `fs::read_to_string` followed by `syn::parse_file`
(`none` is a read or parse failure; both are fatal in the same way). -/
structure Fsys where
  pathExists : FsPath → Bool
  readFile : FsPath → Option RustFile

/-- The run-level outcome of a piece of Rust code: an `anyhow` error that
is returned as a value (`errE`), a process panic (`panicE`), or exhaustion
of the model's fuel (`fuelOut`, not a behaviour of the Rust code). -/
inductive RunErr where
  | fuelOut
  | errE (msg : String)
  | panicE (msg : String)
deriving DecidableEq, Repr

/-- `Manifest` (src/call_graph/manifest.rs): only the optional package
name is relevant. -/
structure Manifest where
  package : Option String
deriving DecidableEq, Repr

/-- `Manifest::package_name`. -/
def Manifest.package_name (m : Manifest) : Option String :=
  m.package

/-- `to_snake_case` (src/utils/mod.rs): replace every `-` by `_`. -/
def to_snake_case (s : String) : String :=
  ⟨s.data.map (fun c => if c == '-' then '_' else c)⟩

/-- `EntryPoint` (src/call_graph/graph.rs). -/
inductive EntryPoint where
  | func (s : String)
  | methodCall (target_struct : String) (method : String)
deriving DecidableEq, Repr

/-- `CallNode` (src/call_graph/graph.rs): node metadata. -/
structure CallNode where
  method_of : Option String
  identifier : String
  start : LineColumn
  stop : LineColumn
deriving DecidableEq, Repr

/-- `From<&ItemFn> for CallNode`. -/
def CallNode.ofItemFn (f : ItemFn) : CallNode :=
  { method_of := none, identifier := f.ident, start := f.span.start, stop := f.span.stop }

/-- `From<&ExprPath> for CallNode`, at its only call site, where
`path.get_ident()` is `Some ident` (so the `unwrap` cannot panic). -/
def CallNode.ofExprPathIdent (ident : String) (sp : Span) : CallNode :=
  { method_of := none, identifier := ident, start := sp.start, stop := sp.stop }

/-- `From<(&ImplItemFn, &ItemImpl)> for CallNode`: `method_of` is the last
segment of the impl block's self type path, if any. -/
def CallNode.ofImplMethod (f : ImplItemFn) (impl_block : ItemImpl) : CallNode :=
  { method_of := impl_block.self_ty.getLast?
    identifier := f.ident
    start := f.span.start
    stop := f.span.stop }

/-- `Path::get_ident` on an expression path: `some` exactly when the path
is a single plain segment. -/
def pathGetIdent (segments : List String) : Option String :=
  match segments with
  | [seg] => some seg
  | _ => none

/-- `LocalImport` (src/call_graph/import.rs). -/
structure LocalImport where
  identifier : String
  full_path : String
  module_file_path : FsPath
deriving DecidableEq, Repr

/-- `ExternalImport` (src/call_graph/import.rs). -/
structure ExternalImport where
  identifier : String
  full_path : String
deriving DecidableEq, Repr

/-- `ExternalImport::new`: note `identifier` is `path_segments[0]`, the
first segment (indexing an empty slice panics). -/
def ExternalImport.new (path_segments : List String) : Except RunErr ExternalImport :=
  match path_segments.head? with
  | none => .error (.panicE "index out of bounds: the len is 0 but the index is 0")
  | some first => .ok { identifier := first, full_path := joinColons path_segments }

/-- `LocalImport::resolve_import_module_path`.  Returns `.ok none` where the
Rust returns `None` (both through the explicit `return None` arms and the
`?` operators), and a panic when the slice `&segments[1..segments.len()-1]`
has a start greater than its end (which happens exactly when `segments`
has one element, since `skip_segment` is always `1`). -/
def resolve_import_module_path (fs : Fsys) (segments : List String)
    (base_dir : FsPath) (crate_name : String) : Except RunErr (Option FsPath) :=
  match segments.head? with
  | none => .ok none
  | some first =>
    let base? : Option (FsPath × Nat) :=
      if first = crate_name ∨ first = "crate" then
        match ((ancestorsOf base_dir).find? (fun d => fs.pathExists (d ++ ["src"]))).map
            (fun d => d ++ ["src"]) with
        | none => none
        | some dir => some (dir, 1)
      else if first = "self" then
        some (base_dir, 1)
      else if first = "super" then
        match parentDir base_dir with
        | none => none
        | some p => some (p, 1)
      else
        none
    match base? with
    | none => .ok none
    | some (module_dir0, skip_segment) =>
      if segments.length - 1 < skip_segment then
        .error (.panicE "slice index starts at 1 but ends at 0")
      else
        let interior := (segments.drop skip_segment).take (segments.length - 1 - skip_segment)
        let module_dir := module_dir0 ++ interior
        match segments.getLast? with
        | none => .ok none
        | some module_name =>
          let file_rs := module_dir ++ [module_name ++ ".rs"]
          let mod_rs := module_dir ++ [module_name, "mod.rs"]
          if fs.pathExists file_rs then .ok (some file_rs)
          else if fs.pathExists mod_rs then .ok (some mod_rs)
          else .ok none

/-- `LocalImport::try_new`: drops the final segment (`..len-1`, which on an
empty slice underflows and panics), resolves the rest to a module file, and
keeps the final segment as the imported identifier. -/
def LocalImport.try_new (fs : Fsys) (path_segments : List String)
    (base_dir : FsPath) (crate_name : String) : Except RunErr LocalImport :=
  if path_segments.length = 0 then
    .error (.panicE "attempt to subtract with overflow")
  else
    match resolve_import_module_path fs path_segments.dropLast base_dir crate_name with
    | .error e => .error e
    | .ok none =>
      .error (.errE ("failed to resolve import module path or " ++ joinColons path_segments))
    | .ok (some module_file_path) =>
      match path_segments.getLast? with
      | none => .error (.panicE "called `Option::unwrap()` on a `None` value")
      | some identifier =>
        .ok { identifier := identifier
              full_path := joinColons path_segments
              module_file_path := module_file_path }

/-- `Import` (src/call_graph/import.rs). -/
inductive Import where
  | localImp (li : LocalImport)
  | externalImp (e : ExternalImport)
deriving DecidableEq, Repr

/-- `Import::get_identifier`. -/
def Import.get_identifier : Import → String
  | .localImp li => li.identifier
  | .externalImp e => e.identifier

/-- `ImportMap`: a `HashMap<String, Import>` keyed by `get_identifier`. -/
structure ImportMap where
  imports : List (String × Import)
deriving DecidableEq, Repr

/-- `ImportMap::new`. -/
def ImportMap.new : ImportMap := { imports := [] }

/-- `ImportMap::insert` (HashMap insert: the new binding shadows an old one). -/
def ImportMap.insert (m : ImportMap) (value : Import) : ImportMap :=
  { imports := (value.get_identifier, value) :: m.imports }

/-- `ImportMap::get`. -/
def ImportMap.get (m : ImportMap) (key : String) : Option Import :=
  (m.imports.find? (fun p => p.1 == key)).map (fun p => p.2)

/-- `self.entry_file.parent().unwrap_or_else(|| Path::new("."))`. -/
def baseDirOf (entry_file : FsPath) : FsPath :=
  match parentDir entry_file with
  | some p => p
  | none => ["."]

/-- The first segments that make `CallGraphBuilder::resolve_import` take a
`Local` branch: `crate`, `self`, `super`, or the snake-cased package name. -/
def localFirstSegs (manifest : Manifest) : List String :=
  ["crate", "self", "super"] ++
    (match manifest.package_name with
     | some n => [to_snake_case n]
     | none => [])

/-- `CallGraphBuilder::resolve_import`.  The `crate`/`self`/`super` arm
`unwrap`s the package name (panicking when the manifest has none); the
second arm fires when the first segment equals the snake-cased package
name; everything else falls through to `ExternalImport::new`. -/
def resolve_import (fs : Fsys) (manifest : Manifest) (entry_file : FsPath)
    (path_pre : List String) : Except RunErr Import :=
  match path_pre.head? with
  | some first =>
    if first = "crate" ∨ first = "self" ∨ first = "super" then
      match manifest.package_name with
      | none => .error (.panicE "called `Option::unwrap()` on a `None` value")
      | some n =>
        match LocalImport.try_new fs path_pre (baseDirOf entry_file) (to_snake_case n) with
        | .error e => .error e
        | .ok li => .ok (.localImp li)
    else if some first = manifest.package_name.map (fun n => to_snake_case n) then
      match manifest.package_name with
      | none => .error (.panicE "called `Option::unwrap()` on a `None` value")
      | some n =>
        match LocalImport.try_new fs path_pre (baseDirOf entry_file) (to_snake_case n) with
        | .error e => .error e
        | .ok li => .ok (.localImp li)
    else
      match ExternalImport.new path_pre with
      | .error e => .error e
      | .ok e => .ok (.externalImp e)
  | none =>
    match ExternalImport.new path_pre with
    | .error e => .error e
    | .ok e => .ok (.externalImp e)

/-- The `todo!` message produced for glob and renamed uses. -/
def unsupportedImportMsg : String :=
  "not yet implemented: not sure how to handle glob and rename yet"

mutual

/-- `CallGraphBuilder::process_use_tree`.  The `&mut Vec<String>` prefix
(push / recurse / pop) is modelled by passing the extended prefix down; the
`&mut ImportMap` is threaded and returned, so inserts made before a failure
survive it, as they do through the Rust `&mut` reference.  The second
component is the first failure (`?` short-circuits the rest of the tree):
a returned `anyhow` error for a failed resolution, or the `todo!` panic for
glob and rename trees. -/
def process_use_tree (fs : Fsys) (manifest : Manifest) (entry_file : FsPath)
    (tree : UseTree) (path_pre : List String) (imports : ImportMap) :
    ImportMap × Option RunErr :=
  match tree with
  | .path ident sub => process_use_tree fs manifest entry_file sub (path_pre ++ [ident]) imports
  | .group items => process_use_trees fs manifest entry_file items path_pre imports
  | .name ident =>
    match resolve_import fs manifest entry_file (path_pre ++ [ident]) with
    | .error e => (imports, some e)
    | .ok imp => (imports.insert imp, none)
  | .glob => (imports, some (.panicE unsupportedImportMsg))
  | .rename _ _ => (imports, some (.panicE unsupportedImportMsg))

/-- The loop over a `UseTree::Group`'s items inside `process_use_tree`;
the `?` inside the loop stops at the first failure. -/
def process_use_trees (fs : Fsys) (manifest : Manifest) (entry_file : FsPath)
    (trees : List UseTree) (path_pre : List String) (imports : ImportMap) :
    ImportMap × Option RunErr :=
  match trees with
  | [] => (imports, none)
  | t :: rest =>
    match process_use_tree fs manifest entry_file t path_pre imports with
    | (m, some e) => (m, some e)
    | (m, none) => process_use_trees fs manifest entry_file rest path_pre m
end

/-- `CallGraphBuilder::resolve_node_key`: the entry file's components
joined by `::` with every occurrence of `.rs` removed, then the entry
point's name (or `Type::method`). -/
def resolve_node_key (entry_file : FsPath) (ep : EntryPoint) : String :=
  match ep with
  | .func s => (rust_replace (joinColons entry_file) ".rs" "") ++ "::" ++ s
  | .methodCall target_struct method =>
    (rust_replace (joinColons entry_file) ".rs" "") ++ "::" ++ target_struct ++ "::" ++ method

/-- `petgraph::DiGraph<String, Edge>`: node payloads in insertion order
(so the node index is the list position) and edges as index pairs (the
`Edge {}` weight carries no data). -/
structure CGraph where
  nodes : List String
  edges : List (Nat × Nat)
deriving DecidableEq, Repr

/-- `Graph::add_node`: appends and returns the fresh index. -/
def CGraph.add_node (g : CGraph) (w : String) : CGraph × Nat :=
  ({ g with nodes := g.nodes ++ [w] }, g.nodes.length)

/-- `Graph::add_edge`. -/
def CGraph.add_edge (g : CGraph) (a b : Nat) : CGraph :=
  { g with edges := g.edges ++ [(a, b)] }

/-- `nodes_map.contains_key`. -/
def containsKey (m : List (String × CallNode)) (k : String) : Bool :=
  m.any (fun p => p.1 == k)

/-- `nodes_index_map.get`. -/
def indexLookup (m : List (String × Nat)) (k : String) : Option Nat :=
  (m.find? (fun p => p.1 == k)).map (fun p => p.2)

/-- The shared mutable state threaded by `&mut` through the whole
recursion: the graph, the `nodes_map` and `nodes_index_map` registries
(association lists; inserts prepend), plus a trace of every
`fs::read_to_string` call (for claims about file-system access). -/
structure BuildState where
  graph : CGraph
  nodes_map : List (String × CallNode)
  nodes_index_map : List (String × Nat)
  files_read : List FsPath
deriving DecidableEq, Repr

/-- The node-registration sequence shared verbatim by all four insertion
sites (`visit_item_fn`, `visit_item_impl`, the `Self::` branch of
`visit_expr_call`, and the external branch of `handle_fn_call`): insert
into `nodes_map`, `add_node`, insert into `nodes_index_map`, then add an
edge from the parent if a parent key is given and resolves in the (just
updated) index map.  Each call site keeps its own `contains_key` guard. -/
def registerNode (st : BuildState) (key : String) (cn : CallNode)
    (parent_key : Option String) : BuildState :=
  let m := (key, cn) :: st.nodes_map
  let gi := st.graph.add_node key
  let idx := (key, gi.2) :: st.nodes_index_map
  let g :=
    match parent_key with
    | none => gi.1
    | some pk =>
      match indexLookup idx pk with
      | none => gi.1
      | some pidx => gi.1.add_edge pidx gi.2
  { st with graph := g, nodes_map := m, nodes_index_map := idx }

/-- The per-builder constants of one `CallGraphBuilder` instance: the
file-system and manifest collaborators, the file being scanned, the entry
point looked for, the parent node key (if any), and the diagnostic depth. -/
structure CGBCtx where
  fs : Fsys
  manifest : Manifest
  entry_file : FsPath
  entrypoint : EntryPoint
  parent_node_key : Option String
  depth : Nat

/-- `ParentNode` (the walker's current function or method). -/
inductive ParentNode where
  | fnNode (item : ItemFn) (node_key : String)
  | methodNode (item : ImplItemFn) (impl_block : ItemImpl) (node_key : String)

/-- The node key of the walker's parent. -/
def ParentNode.node_key : ParentNode → String
  | .fnNode _ k => k
  | .methodNode _ _ k => k

/-- The block the walker visits (`FunctionCallBuilder::build`). -/
def ParentNode.block : ParentNode → List Expr
  | .fnNode f _ => f.block
  | .methodNode f _ _ => f.block

/-- The first `ImplItem::Fn` named `method` (the `for` loop with `break`
in `visit_item_impl` and in the `Self::` branch acts on this item). -/
def find_impl_method (items : List ImplItem) (method : String) : Option ImplItemFn :=
  match items with
  | [] => none
  | .fnItem f :: rest => if f.ident = method then some f else find_impl_method rest method
  | .otherItem :: rest => find_impl_method rest method

mutual

/-- `CallGraphBuilder::build`, as used recursively: read and parse the entry
file (recording the read attempt), scan its items with a fresh import map,
and return the builder's stored error (if any) alongside the state.  A
`.ok (some msg, st)` is a build that returned `Err` while its mutations to
the shared graph survive in `st`; panics and fuel exhaustion short-circuit
through `.error`. -/
def cgb_build_core (fuel : Nat) (ctx : CGBCtx) (st : BuildState) :
    Except RunErr (Option String × BuildState) :=
  match fuel with
  | 0 => .error .fuelOut
  | fuel + 1 =>
    let st := { st with files_read := st.files_read ++ [ctx.entry_file] }
    match ctx.fs.readFile ctx.entry_file with
    | none => .ok (some "failed to read or parse the entry file", st)
    | some file =>
      match visit_items fuel ctx file.items ImportMap.new none st with
      | .error e => .error e
      | .ok (_, err, st) => .ok (err, st)
termination_by structural fuel

/-- `Visit::visit_file` over the item list: `visit_item_use` (process the
use tree, storing a returned error in `self.error` and scanning on, or
aborting on the `todo!` panic), `visit_item_fn` (match a `Func` entry
point, dedup on the registry, register and walk the body), and
`visit_item_impl` (match a `MethodCall` entry point against the impl's
self type and its first method of the given name).  The default sub-visits
(`syn::visit::visit_item_*`) find no further items in this model of
bodies, so they have no effect. -/
def visit_items (fuel : Nat) (ctx : CGBCtx) (items : List Item)
    (imports : ImportMap) (err : Option String) (st : BuildState) :
    Except RunErr (ImportMap × Option String × BuildState) :=
  match fuel with
  | 0 => .error .fuelOut
  | fuel + 1 =>
    match items with
    | [] => .ok (imports, err, st)
    | .useItem tree :: rest =>
      match process_use_tree ctx.fs ctx.manifest ctx.entry_file tree [] imports with
      | (_, some (.panicE m)) => .error (.panicE m)
      | (_, some .fuelOut) => .error .fuelOut
      | (imports2, some (.errE m)) => visit_items fuel ctx rest imports2 (some m) st
      | (imports2, none) => visit_items fuel ctx rest imports2 err st
    | .fnItem f :: rest =>
      match ctx.entrypoint with
      | .func s =>
        if s = f.ident then
          let node_key := resolve_node_key ctx.entry_file ctx.entrypoint
          let entry_node := CallNode.ofItemFn f
          if containsKey st.nodes_map node_key then
            visit_items fuel ctx rest imports err st
          else
            let st2 := registerNode st node_key entry_node ctx.parent_node_key
            match fcb_build_core fuel ctx imports (.fnNode f node_key) (ctx.depth + 1) st2 with
            | .error e => .error e
            | .ok (some m, st3) => visit_items fuel ctx rest imports (some m) st3
            | .ok (none, st3) => visit_items fuel ctx rest imports err st3
        else
          visit_items fuel ctx rest imports err st
      | .methodCall _ _ => visit_items fuel ctx rest imports err st
    | .implItem ib :: rest =>
      match ctx.entrypoint with
      | .methodCall target_struct method =>
        match ib.self_ty.getLast? with
        | some last =>
          if last = target_struct then
            match find_impl_method ib.items method with
            | none => visit_items fuel ctx rest imports err st
            | some method_node =>
              let entry_node := CallNode.ofImplMethod method_node ib
              let node_key := (rust_replace (joinColons ctx.entry_file) ".rs" "")
                ++ "::" ++ target_struct ++ "::" ++ method
              if containsKey st.nodes_map node_key then
                visit_items fuel ctx rest imports err st
              else
                let st2 := registerNode st node_key entry_node ctx.parent_node_key
                match fcb_build_core fuel ctx imports
                    (.methodNode method_node ib node_key) (ctx.depth + 1) st2 with
                | .error e => .error e
                | .ok (some m, st3) => visit_items fuel ctx rest imports (some m) st3
                | .ok (none, st3) => visit_items fuel ctx rest imports err st3
          else
            visit_items fuel ctx rest imports err st
        | none => visit_items fuel ctx rest imports err st
      | .func _ => visit_items fuel ctx rest imports err st
termination_by structural fuel

/-- `FunctionCallBuilder::build`: visit the parent's block with a fresh
`error` field, then report the stored error with the state. -/
def fcb_build_core (fuel : Nat) (ctx : CGBCtx) (imports : ImportMap)
    (parent : ParentNode) (wdepth : Nat) (st : BuildState) :
    Except RunErr (Option String × BuildState) :=
  match fuel with
  | 0 => .error .fuelOut
  | fuel + 1 => fcb_walk_exprs fuel ctx imports parent wdepth parent.block none st
termination_by structural fuel

/-- The walker's traversal of a list of expressions (block statements or
the sub-visits of a call's function and arguments); stored errors do not
stop the traversal. -/
def fcb_walk_exprs (fuel : Nat) (ctx : CGBCtx) (imports : ImportMap)
    (parent : ParentNode) (wdepth : Nat) (es : List Expr)
    (werr : Option String) (st : BuildState) :
    Except RunErr (Option String × BuildState) :=
  match fuel with
  | 0 => .error .fuelOut
  | fuel + 1 =>
    match es with
    | [] => .ok (werr, st)
    | e :: rest =>
      match fcb_walk_expr fuel ctx imports parent wdepth e werr st with
      | .error er => .error er
      | .ok (w2, s2) => fcb_walk_exprs fuel ctx imports parent wdepth rest w2 s2
termination_by structural fuel

/-- `FunctionCallBuilder::visit_expr_call` (and the default visits for the
other expression forms; `visit_expr_method_call`'s handling is commented
out in the source, so method-call syntax only sub-visits).  A call whose
callee is a single-identifier path goes through `handle_fn_call`; a
two-segment path is either the `Self::` branch (only inside a method) or,
for a locally imported first segment, a recursive builder invocation with
a `MethodCall` entry point whose failure is stored and returns early
(skipping the sub-visit); all other shapes fall through to the sub-visit
of the callee and arguments. -/
def fcb_walk_expr (fuel : Nat) (ctx : CGBCtx) (imports : ImportMap)
    (parent : ParentNode) (wdepth : Nat) (e : Expr)
    (werr : Option String) (st : BuildState) :
    Except RunErr (Option String × BuildState) :=
  match fuel with
  | 0 => .error .fuelOut
  | fuel + 1 =>
    match e with
    | .pathE _ _ => .ok (werr, st)
    | .methodCallE recv _ args _ =>
      match fcb_walk_expr fuel ctx imports parent wdepth recv werr st with
      | .error er => .error er
      | .ok (w2, s2) => fcb_walk_exprs fuel ctx imports parent wdepth args w2 s2
    | .callE f args _ =>
      let parent_node_key := parent.node_key
      match f with
      | .pathE segments psp =>
        match pathGetIdent segments with
        | some ident =>
          match fcb_handle_fn_call fuel ctx imports parent wdepth ident
              (CallNode.ofExprPathIdent ident psp) werr st with
          | .error er => .error er
          | .ok (w2, s2) =>
            match fcb_walk_expr fuel ctx imports parent wdepth f w2 s2 with
            | .error er => .error er
            | .ok (w3, s3) => fcb_walk_exprs fuel ctx imports parent wdepth args w3 s3
        | none =>
          match segments with
          | [first, second] =>
            if first = "Self" then
              match parent with
              | .methodNode _ impl_block _ =>
                match self_call_loop fuel ctx imports parent wdepth impl_block
                    impl_block.items second parent_node_key werr st with
                | .error er => .error er
                | .ok (true, w2, s2) => .ok (w2, s2)
                | .ok (false, w2, s2) =>
                  match fcb_walk_expr fuel ctx imports parent wdepth f w2 s2 with
                  | .error er => .error er
                  | .ok (w3, s3) => fcb_walk_exprs fuel ctx imports parent wdepth args w3 s3
              | .fnNode _ _ =>
                match fcb_walk_expr fuel ctx imports parent wdepth f werr st with
                | .error er => .error er
                | .ok (w3, s3) => fcb_walk_exprs fuel ctx imports parent wdepth args w3 s3
            else
              match imports.get first with
              | some (.localImp li) =>
                match cgb_build_core fuel
                    { fs := ctx.fs, manifest := ctx.manifest
                      entry_file := li.module_file_path
                      entrypoint := .methodCall first second
                      parent_node_key := some parent_node_key
                      depth := wdepth + 1 } st with
                | .error er => .error er
                | .ok (some m, s2) => .ok (some m, s2)
                | .ok (none, s2) =>
                  match fcb_walk_expr fuel ctx imports parent wdepth f werr s2 with
                  | .error er => .error er
                  | .ok (w3, s3) => fcb_walk_exprs fuel ctx imports parent wdepth args w3 s3
              | _ =>
                match fcb_walk_expr fuel ctx imports parent wdepth f werr st with
                | .error er => .error er
                | .ok (w3, s3) => fcb_walk_exprs fuel ctx imports parent wdepth args w3 s3
          | _ =>
            match fcb_walk_expr fuel ctx imports parent wdepth f werr st with
            | .error er => .error er
            | .ok (w3, s3) => fcb_walk_exprs fuel ctx imports parent wdepth args w3 s3
      | _ =>
        match fcb_walk_expr fuel ctx imports parent wdepth f werr st with
        | .error er => .error er
        | .ok (w3, s3) => fcb_walk_exprs fuel ctx imports parent wdepth args w3 s3
termination_by structural fuel

/-- The `for impl_item in &impl_block.items` loop of the `Self::` branch:
skip non-methods and methods whose name differs; on the first method named
`method`, compute the node key from the *builder's entry point* (this is
what the source does: `s` comes from `self.call_graph_builder.entrypoint`,
not from the callee), dedup against the registry, optionally register the
node with an edge from the parent and walk the callee's body, then break.
The boolean result is the early `return` taken when the inner walk
reported an error (it skips the caller's sub-visit). -/
def self_call_loop (fuel : Nat) (ctx : CGBCtx) (imports : ImportMap)
    (parent : ParentNode) (wdepth : Nat) (impl_block : ItemImpl)
    (items : List ImplItem) (method : String) (parent_node_key : String)
    (werr : Option String) (st : BuildState) :
    Except RunErr (Bool × Option String × BuildState) :=
  match fuel with
  | 0 => .error .fuelOut
  | fuel + 1 =>
    match items with
    | [] => .ok (false, werr, st)
    | .otherItem :: rest =>
      self_call_loop fuel ctx imports parent wdepth impl_block rest method
        parent_node_key werr st
    | .fnItem method_node :: rest =>
      if method_node.ident = method then
        let entry_node := CallNode.ofImplMethod method_node impl_block
        let s :=
          match ctx.entrypoint with
          | .func f2 => f2
          | .methodCall target_struct m2 => target_struct ++ "::" ++ m2
        let node_key := (rust_replace (joinColons ctx.entry_file) ".rs" "") ++ "::" ++ s
        if containsKey st.nodes_map node_key then
          .ok (false, werr, st)
        else
          let st2 := registerNode st node_key entry_node (some parent_node_key)
          match fcb_build_core fuel ctx imports
              (.methodNode method_node impl_block node_key) (wdepth + 1) st2 with
          | .error er => .error er
          | .ok (some m, st3) => .ok (true, some m, st3)
          | .ok (none, st3) => .ok (false, werr, st3)
      else
        self_call_loop fuel ctx imports parent wdepth impl_block rest method
          parent_node_key werr st
termination_by structural fuel

/-- `FunctionCallBuilder::handle_fn_call`: look the identifier up in the
enclosing builder's import map; a `Local` import triggers a recursive
builder on its resolved file with a `Func` entry point (a failure is
stored in the walker's error); an `External` import materializes a leaf
node keyed by the import's full path (deduped on the registry) and an edge
from the parent; an unknown identifier is silently ignored. -/
def fcb_handle_fn_call (fuel : Nat) (ctx : CGBCtx) (imports : ImportMap)
    (parent : ParentNode) (wdepth : Nat) (ident : String) (call_node : CallNode)
    (werr : Option String) (st : BuildState) :
    Except RunErr (Option String × BuildState) :=
  match fuel with
  | 0 => .error .fuelOut
  | fuel + 1 =>
    let parent_node_key := parent.node_key
    match imports.get ident with
    | none => .ok (werr, st)
    | some (.localImp imp) =>
      match cgb_build_core fuel
          { fs := ctx.fs, manifest := ctx.manifest
            entry_file := imp.module_file_path
            entrypoint := .func ident
            parent_node_key := some parent_node_key
            depth := wdepth + 1 } st with
      | .error er => .error er
      | .ok (some m, st2) => .ok (some m, st2)
      | .ok (none, st2) => .ok (werr, st2)
    | some (.externalImp imp) =>
      if containsKey st.nodes_map imp.full_path then
        .ok (werr, st)
      else
        .ok (werr, registerNode st imp.full_path call_node (some parent_node_key))
termination_by structural fuel

end

/-- `CallGraphBuilder::build` as seen by the top-level caller
(`CallGraph::build`): the stored error, if any, is returned as the build's
failure result. -/
def cgb_build (fuel : Nat) (fs : Fsys) (manifest : Manifest) (entry_file : FsPath)
    (entrypoint : EntryPoint) (parent_node_key : Option String) (depth : Nat)
    (st : BuildState) : Except RunErr BuildState :=
  match cgb_build_core fuel
      { fs := fs, manifest := manifest, entry_file := entry_file
        entrypoint := entrypoint, parent_node_key := parent_node_key
        depth := depth } st with
  | .error e => .error e
  | .ok (some m, _) => .error (.errE m)
  | .ok (none, st2) => .ok st2

/-- The empty initial state (`CallGraph::try_new` creates empty graph and
registries). -/
def initState : BuildState :=
  { graph := { nodes := [], edges := [] }, nodes_map := [], nodes_index_map := []
    files_read := [] }

/-! ### Concrete fixtures

Small source trees used to evaluate the build on the scenarios named by
the specification. -/

/-- A dummy span (spans carry no weight in any claim). -/
def sp0 : Span := ⟨⟨0, 0⟩, ⟨0, 0⟩⟩

/-- A manifest whose package is named `docgen`. -/
def dmanifest : Manifest := ⟨some "docgen"⟩

/-- A file system with no files at all. -/
def fsNone : Fsys := ⟨fun _ => false, fun _ => none⟩

/-- `src/main.rs` containing `impl T { fn m1() { Self::m2() } fn m2() {} }`. -/
def fileSelfCall : RustFile :=
  ⟨[.implItem ⟨["T"],
      [.fnItem ⟨"m1", [.callE (.pathE ["Self", "m2"] sp0) [] sp0], sp0⟩,
       .fnItem ⟨"m2", [], sp0⟩]⟩]⟩

/-- The file system holding only `fileSelfCall` at `src/main.rs`. -/
def fsSelfCall : Fsys :=
  ⟨fun _ => false, fun p => if p = ["src", "main.rs"] then some fileSelfCall else none⟩

/-- `src/a_file.rs`: `use crate::b_file::b; fn a() { b() }`. -/
def fileMutualA : RustFile :=
  ⟨[.useItem (.path "crate" (.path "b_file" (.name "b"))),
    .fnItem ⟨"a", [.callE (.pathE ["b"] sp0) [] sp0], sp0⟩]⟩

/-- `src/b_file.rs`: `use crate::a_file::a; fn b() { a() }`. -/
def fileMutualB : RustFile :=
  ⟨[.useItem (.path "crate" (.path "a_file" (.name "a"))),
    .fnItem ⟨"b", [.callE (.pathE ["a"] sp0) [] sp0], sp0⟩]⟩

/-- The file system of the mutual-recursion fixture. -/
def fsMutual : Fsys :=
  ⟨fun p => p == ["src"] || p == ["src", "a_file.rs"] || p == ["src", "b_file.rs"],
   fun p =>
     if p = ["src", "a_file.rs"] then some fileMutualA
     else if p = ["src", "b_file.rs"] then some fileMutualB
     else none⟩

/-- `src/main.rs` containing `use foo::*;` (a glob import). -/
def fileGlob : RustFile := ⟨[.useItem (.path "foo" .glob)]⟩

/-- The file system holding only `fileGlob` at `src/main.rs`. -/
def fsGlob : Fsys :=
  ⟨fun _ => false, fun p => if p = ["src", "main.rs"] then some fileGlob else none⟩

/-- `src/main.rs`: `use std::fs::read_to_string; fn main() { read_to_string() }`. -/
def fileExternalCall : RustFile :=
  ⟨[.useItem (.path "std" (.path "fs" (.name "read_to_string"))),
    .fnItem ⟨"main", [.callE (.pathE ["read_to_string"] sp0) [] sp0], sp0⟩]⟩

/-- The file system holding only `fileExternalCall` at `src/main.rs`. -/
def fsExternalCall : Fsys :=
  ⟨fun _ => false, fun p => if p = ["src", "main.rs"] then some fileExternalCall else none⟩

/-- `src/main.rs` containing just `fn main() {}`. -/
def fileMainOnly : RustFile := ⟨[.fnItem ⟨"main", [], sp0⟩]⟩

/-- The file system holding only `fileMainOnly` at `src/main.rs`. -/
def fsMainOnly : Fsys :=
  ⟨fun _ => false, fun p => if p = ["src", "main.rs"] then some fileMainOnly else none⟩

/-- `src/main.rs` as an empty (but well-parsed) file. -/
def fileEmpty : RustFile := ⟨[]⟩

/-- The file system holding only `fileEmpty` at `src/main.rs`. -/
def fsEmptyFile : Fsys :=
  ⟨fun _ => false, fun p => if p = ["src", "main.rs"] then some fileEmpty else none⟩

/-- A file system where `src/self.rs` exists (for the two-segment
`self::x` import scenario). -/
def fsSelfRs : Fsys :=
  ⟨fun p => p == ["src", "self.rs"], fun _ => none⟩

/-- Whether an impl block has a method of the given name (the condition
under which the `for` loop of `visit_item_impl` finds its target). -/
def implHasMethod (items : List ImplItem) (method : String) : Bool :=
  items.any (fun ii =>
    match ii with
    | .fnItem f => f.ident == method
    | .otherItem => false)

/-- Whether an item is the definition `visit_item_fn` / `visit_item_impl`
would act on for the given entry point. -/
def itemMatches (ep : EntryPoint) : Item → Bool
  | .useItem _ => false
  | .fnItem f =>
    match ep with
    | .func s => s == f.ident
    | .methodCall _ _ => false
  | .implItem ib =>
    match ep with
    | .func _ => false
    | .methodCall target_struct method =>
      (ib.self_ty.getLast? == some target_struct) && implHasMethod ib.items method

/-- Modelled from the spec's words (spec.md §4.1): given the path already
handed to directory resolution (the import path with the imported
identifier dropped), compute the base directory from the first segment
(`crate` or the package name: the closest ancestor holding a `src`
directory, then `src`; `self`: the current directory; `super`: its
parent), join the remaining interior segments as sub-directories, and
resolve the final segment — the module name — to `<module>.rs` if that
file exists, else `<module>/mod.rs` if that exists, and otherwise fail
(`none`).  Unlike the code, this has no slice panic on one-segment
paths. -/
def spec_local_module_resolution (fs : Fsys) (handed : List String)
    (base_dir : FsPath) (crate_name : String) : Option FsPath :=
  match handed.head?, handed.getLast? with
  | some first, some module_name =>
    let base? : Option FsPath :=
      if first = crate_name ∨ first = "crate" then
        ((ancestorsOf base_dir).find? (fun d => fs.pathExists (d ++ ["src"]))).map
          (fun d => d ++ ["src"])
      else if first = "self" then some base_dir
      else if first = "super" then parentDir base_dir
      else none
    match base? with
    | none => none
    | some dir0 =>
      let dir := dir0 ++ ((handed.drop 1).take (handed.length - 2))
      let file_rs := dir ++ [module_name ++ ".rs"]
      let mod_rs := dir ++ [module_name, "mod.rs"]
      if fs.pathExists file_rs then some file_rs
      else if fs.pathExists mod_rs then some mod_rs
      else none
  | _, _ => none

/-- The graph invariant of claim C3: every Node Key labels at most one
vertex, and every vertex's key is registered in `nodes_map` (the registry
whose membership check guards all four insertion sites). -/
def GraphInv (st : BuildState) : Prop :=
  st.graph.nodes.Nodup ∧ ∀ k, k ∈ st.graph.nodes → containsKey st.nodes_map k = true

/-- The state produced by building the single-function fixture (used as a
concrete witness). -/
def mainOnlyFinalState : BuildState :=
  { graph := { nodes := ["src::main::main"], edges := [] }
    nodes_map := [("src::main::main",
      { method_of := none, identifier := "main", start := ⟨0, 0⟩, stop := ⟨0, 0⟩ })]
    nodes_index_map := [("src::main::main", 0)]
    files_read := [["src", "main.rs"]] }

/-! ### Claim theorems -/

/-- Claim C1: on a file defining `impl T { fn m1() { Self::m2() } fn m2() {} }`,
entered at `MethodCall{T, m1}`, the claim expects vertices keyed
`src::main::T::m1` and `src::main::T::m2` and one edge between them.  The
code instead produces only the `m1` vertex and no edge: the `Self::` branch
computes its node key from the builder's *entry point* (already registered),
so its registry guard always fires and neither the `m2` vertex nor the edge
is ever created.  This theorem evaluates the build at that input. -/
theorem c1_self_call_eval :
    (cgb_build 20 fsSelfCall dmanifest ["src", "main.rs"] (.methodCall "T" "m1")
        none 0 initState).map (fun st => (st.graph.nodes, st.graph.edges)) =
      .ok (["src::main::T::m1"], []) := by decide

/-- One-step unfolding of `fcb_walk_expr` at successor fuel, stated by hand
because Lean fails to generate the unfold equation for this member of the
mutual block. -/
theorem fcb_walk_expr_succ (fuel : Nat) (ctx : CGBCtx) (imports : ImportMap)
    (parent : ParentNode) (wdepth : Nat) (e : Expr) (werr : Option String)
    (st : BuildState) :
    fcb_walk_expr (fuel + 1) ctx imports parent wdepth e werr st =
      match e with
      | .pathE _ _ => .ok (werr, st)
      | .methodCallE recv _ args _ =>
        match fcb_walk_expr fuel ctx imports parent wdepth recv werr st with
        | .error er => .error er
        | .ok (w2, s2) => fcb_walk_exprs fuel ctx imports parent wdepth args w2 s2
      | .callE f args _ =>
        let parent_node_key := parent.node_key
        match f with
        | .pathE segments psp =>
          match pathGetIdent segments with
          | some ident =>
            match fcb_handle_fn_call fuel ctx imports parent wdepth ident
                (CallNode.ofExprPathIdent ident psp) werr st with
            | .error er => .error er
            | .ok (w2, s2) =>
              match fcb_walk_expr fuel ctx imports parent wdepth f w2 s2 with
              | .error er => .error er
              | .ok (w3, s3) => fcb_walk_exprs fuel ctx imports parent wdepth args w3 s3
          | none =>
            match segments with
            | [first, second] =>
              if first = "Self" then
                match parent with
                | .methodNode _ impl_block _ =>
                  match self_call_loop fuel ctx imports parent wdepth impl_block
                      impl_block.items second parent_node_key werr st with
                  | .error er => .error er
                  | .ok (true, w2, s2) => .ok (w2, s2)
                  | .ok (false, w2, s2) =>
                    match fcb_walk_expr fuel ctx imports parent wdepth f w2 s2 with
                    | .error er => .error er
                    | .ok (w3, s3) =>
                      fcb_walk_exprs fuel ctx imports parent wdepth args w3 s3
                | .fnNode _ _ =>
                  match fcb_walk_expr fuel ctx imports parent wdepth f werr st with
                  | .error er => .error er
                  | .ok (w3, s3) => fcb_walk_exprs fuel ctx imports parent wdepth args w3 s3
              else
                match imports.get first with
                | some (.localImp li) =>
                  match cgb_build_core fuel
                      { fs := ctx.fs, manifest := ctx.manifest
                        entry_file := li.module_file_path
                        entrypoint := .methodCall first second
                        parent_node_key := some parent_node_key
                        depth := wdepth + 1 } st with
                  | .error er => .error er
                  | .ok (some m, s2) => .ok (some m, s2)
                  | .ok (none, s2) =>
                    match fcb_walk_expr fuel ctx imports parent wdepth f werr s2 with
                    | .error er => .error er
                    | .ok (w3, s3) =>
                      fcb_walk_exprs fuel ctx imports parent wdepth args w3 s3
                | _ =>
                  match fcb_walk_expr fuel ctx imports parent wdepth f werr st with
                  | .error er => .error er
                  | .ok (w3, s3) => fcb_walk_exprs fuel ctx imports parent wdepth args w3 s3
            | _ =>
              match fcb_walk_expr fuel ctx imports parent wdepth f werr st with
              | .error er => .error er
              | .ok (w3, s3) => fcb_walk_exprs fuel ctx imports parent wdepth args w3 s3
        | _ =>
          match fcb_walk_expr fuel ctx imports parent wdepth f werr st with
          | .error er => .error er
          | .ok (w3, s3) => fcb_walk_exprs fuel ctx imports parent wdepth args w3 s3 := rfl

/-- Fuel monotonicity for the whole mutual builder: whenever a run at some
fuel does not abort with fuel exhaustion, one more unit of fuel leaves the
result unchanged.  Proved by simultaneous induction over the seven mutually
recursive functions. -/
theorem build_fuel_mono :
    ∀ fuel : Nat,
      (∀ (ctx : CGBCtx) (st : BuildState),
        cgb_build_core fuel ctx st ≠ .error .fuelOut →
        cgb_build_core (fuel + 1) ctx st = cgb_build_core fuel ctx st) ∧
      (∀ (ctx : CGBCtx) (items : List Item) (imports : ImportMap) (err : Option String)
          (st : BuildState),
        visit_items fuel ctx items imports err st ≠ .error .fuelOut →
        visit_items (fuel + 1) ctx items imports err st
          = visit_items fuel ctx items imports err st) ∧
      (∀ (ctx : CGBCtx) (imports : ImportMap) (parent : ParentNode) (wdepth : Nat)
          (st : BuildState),
        fcb_build_core fuel ctx imports parent wdepth st ≠ .error .fuelOut →
        fcb_build_core (fuel + 1) ctx imports parent wdepth st
          = fcb_build_core fuel ctx imports parent wdepth st) ∧
      (∀ (ctx : CGBCtx) (imports : ImportMap) (parent : ParentNode) (wdepth : Nat)
          (es : List Expr) (werr : Option String) (st : BuildState),
        fcb_walk_exprs fuel ctx imports parent wdepth es werr st ≠ .error .fuelOut →
        fcb_walk_exprs (fuel + 1) ctx imports parent wdepth es werr st
          = fcb_walk_exprs fuel ctx imports parent wdepth es werr st) ∧
      (∀ (ctx : CGBCtx) (imports : ImportMap) (parent : ParentNode) (wdepth : Nat)
          (e : Expr) (werr : Option String) (st : BuildState),
        fcb_walk_expr fuel ctx imports parent wdepth e werr st ≠ .error .fuelOut →
        fcb_walk_expr (fuel + 1) ctx imports parent wdepth e werr st
          = fcb_walk_expr fuel ctx imports parent wdepth e werr st) ∧
      (∀ (ctx : CGBCtx) (imports : ImportMap) (parent : ParentNode) (wdepth : Nat)
          (impl_block : ItemImpl) (iitems : List ImplItem) (method : String)
          (pnk : String) (werr : Option String) (st : BuildState),
        self_call_loop fuel ctx imports parent wdepth impl_block iitems method pnk werr st
          ≠ .error .fuelOut →
        self_call_loop (fuel + 1) ctx imports parent wdepth impl_block iitems method pnk
            werr st
          = self_call_loop fuel ctx imports parent wdepth impl_block iitems method pnk
              werr st) ∧
      (∀ (ctx : CGBCtx) (imports : ImportMap) (parent : ParentNode) (wdepth : Nat)
          (ident : String) (cn : CallNode) (werr : Option String) (st : BuildState),
        fcb_handle_fn_call fuel ctx imports parent wdepth ident cn werr st
          ≠ .error .fuelOut →
        fcb_handle_fn_call (fuel + 1) ctx imports parent wdepth ident cn werr st
          = fcb_handle_fn_call fuel ctx imports parent wdepth ident cn werr st) := by
  intro fuel
  induction fuel with
  | zero =>
    refine ⟨?_, ?_, ?_, ?_, ?_, ?_, ?_⟩ <;> intros <;>
      exact absurd rfl (by assumption)
  | succ f ih =>
    obtain ⟨ih1, ih2, ih3, ih4, ih5, ih6, ih7⟩ := ih
    refine ⟨?_, ?_, ?_, ?_, ?_, ?_, ?_⟩
    -- cgb_build_core
    · intro ctx st hnf
      rw [cgb_build_core.eq_def] at hnf
      conv_lhs => rw [cgb_build_core.eq_def]
      conv_rhs => rw [cgb_build_core.eq_def]
      simp only [] at hnf ⊢
      cases hread : ctx.fs.readFile ctx.entry_file with
      | none => simp only [hread]
      | some file =>
        simp only [hread] at hnf ⊢
        cases hv : visit_items f ctx file.items ImportMap.new none
            { st with files_read := st.files_read ++ [ctx.entry_file] } with
        | error e =>
          by_cases hfe : e = .fuelOut
          · subst hfe
            simp only [hv] at hnf
            exact absurd rfl hnf
          · have hg := ih2 ctx file.items ImportMap.new none
              { st with files_read := st.files_read ++ [ctx.entry_file] }
              (by simp [hv, hfe])
            rw [hv] at hg
            simp only [hg, hv]
        | ok t3 =>
          have hg := ih2 ctx file.items ImportMap.new none
            { st with files_read := st.files_read ++ [ctx.entry_file] } (by simp [hv])
          rw [hv] at hg
          simp only [hg, hv]
    -- visit_items
    · intro ctx items imports err st hnf
      rw [visit_items.eq_def] at hnf
      conv_lhs => rw [visit_items.eq_def]
      conv_rhs => rw [visit_items.eq_def]
      simp only [] at hnf ⊢
      cases items with
      | nil => rfl
      | cons item rest =>
        cases item with
        | useItem tree =>
          rcases hp : process_use_tree ctx.fs ctx.manifest ctx.entry_file tree [] imports
            with ⟨m2, e2⟩
          simp only [hp] at hnf ⊢
          match e2 with
          | some (.panicE m) => rfl
          | some .fuelOut => rfl
          | some (.errE m) =>
            simp only at hnf ⊢
            exact ih2 ctx rest m2 (some m) st hnf
          | none =>
            simp only at hnf ⊢
            exact ih2 ctx rest m2 err st hnf
        | fnItem fdef =>
          cases hep : ctx.entrypoint with
          | methodCall ts ms =>
            simp only [hep] at hnf ⊢
            exact ih2 ctx rest imports err st hnf
          | func s =>
            simp only [hep] at hnf ⊢
            by_cases hs : s = fdef.ident
            · rw [if_pos hs] at hnf
              rw [if_pos hs, if_pos hs]
              by_cases hck : containsKey st.nodes_map
                  (resolve_node_key ctx.entry_file (.func s)) = true
              · rw [if_pos hck] at hnf
                rw [if_pos hck, if_pos hck]
                exact ih2 ctx rest imports err st hnf
              · rw [if_neg hck] at hnf
                rw [if_neg hck, if_neg hck]
                cases hb : fcb_build_core f ctx imports
                    (.fnNode fdef (resolve_node_key ctx.entry_file (.func s)))
                    (ctx.depth + 1)
                    (registerNode st (resolve_node_key ctx.entry_file (.func s))
                      (CallNode.ofItemFn fdef) ctx.parent_node_key) with
                | error e =>
                  by_cases hfe : e = .fuelOut
                  · subst hfe
                    simp only [hb] at hnf
                    exact absurd rfl hnf
                  · have hg := ih3 ctx imports
                      (.fnNode fdef (resolve_node_key ctx.entry_file (.func s)))
                      (ctx.depth + 1)
                      (registerNode st (resolve_node_key ctx.entry_file (.func s))
                        (CallNode.ofItemFn fdef) ctx.parent_node_key)
                      (by simp [hb, hfe])
                    rw [hb] at hg
                    simp only [hg, hb]
                | ok pr =>
                  obtain ⟨w2, st3⟩ := pr
                  have hg := ih3 ctx imports
                    (.fnNode fdef (resolve_node_key ctx.entry_file (.func s)))
                    (ctx.depth + 1)
                    (registerNode st (resolve_node_key ctx.entry_file (.func s))
                      (CallNode.ofItemFn fdef) ctx.parent_node_key) (by simp [hb])
                  rw [hb] at hg
                  simp only [hg, hb] at hnf ⊢
                  cases w2 with
                  | some m => exact ih2 ctx rest imports (some m) st3 hnf
                  | none => exact ih2 ctx rest imports err st3 hnf
            · rw [if_neg hs] at hnf
              rw [if_neg hs, if_neg hs]
              exact ih2 ctx rest imports err st hnf
        | implItem ib =>
          cases hep : ctx.entrypoint with
          | func s =>
            simp only [hep] at hnf ⊢
            exact ih2 ctx rest imports err st hnf
          | methodCall ts ms =>
            simp only [hep] at hnf ⊢
            cases hlast : ib.self_ty.getLast? with
            | none =>
              simp only [hlast] at hnf ⊢
              exact ih2 ctx rest imports err st hnf
            | some l =>
              simp only [hlast] at hnf ⊢
              by_cases hl : l = ts
              · rw [if_pos hl] at hnf
                rw [if_pos hl, if_pos hl]
                cases hfind : find_impl_method ib.items ms with
                | none =>
                  simp only [hfind] at hnf ⊢
                  exact ih2 ctx rest imports err st hnf
                | some method_node =>
                  simp only [hfind] at hnf ⊢
                  by_cases hck : containsKey st.nodes_map
                      ((rust_replace (joinColons ctx.entry_file) ".rs" "")
                        ++ "::" ++ ts ++ "::" ++ ms) = true
                  · rw [if_pos hck] at hnf
                    rw [if_pos hck, if_pos hck]
                    exact ih2 ctx rest imports err st hnf
                  · rw [if_neg hck] at hnf
                    rw [if_neg hck, if_neg hck]
                    cases hb : fcb_build_core f ctx imports
                        (.methodNode method_node ib
                          ((rust_replace (joinColons ctx.entry_file) ".rs" "")
                            ++ "::" ++ ts ++ "::" ++ ms)) (ctx.depth + 1)
                        (registerNode st
                          ((rust_replace (joinColons ctx.entry_file) ".rs" "")
                            ++ "::" ++ ts ++ "::" ++ ms)
                          (CallNode.ofImplMethod method_node ib)
                          ctx.parent_node_key) with
                    | error e =>
                      by_cases hfe : e = .fuelOut
                      · subst hfe
                        simp only [hb] at hnf
                        exact absurd rfl hnf
                      · have hg := ih3 ctx imports
                          (.methodNode method_node ib
                            ((rust_replace (joinColons ctx.entry_file) ".rs" "")
                              ++ "::" ++ ts ++ "::" ++ ms)) (ctx.depth + 1)
                          (registerNode st
                            ((rust_replace (joinColons ctx.entry_file) ".rs" "")
                              ++ "::" ++ ts ++ "::" ++ ms)
                            (CallNode.ofImplMethod method_node ib)
                            ctx.parent_node_key)
                          (by simp [hb, hfe])
                        rw [hb] at hg
                        simp only [hg, hb]
                    | ok pr =>
                      obtain ⟨w2, st3⟩ := pr
                      have hg := ih3 ctx imports
                        (.methodNode method_node ib
                          ((rust_replace (joinColons ctx.entry_file) ".rs" "")
                            ++ "::" ++ ts ++ "::" ++ ms)) (ctx.depth + 1)
                        (registerNode st
                          ((rust_replace (joinColons ctx.entry_file) ".rs" "")
                            ++ "::" ++ ts ++ "::" ++ ms)
                          (CallNode.ofImplMethod method_node ib)
                          ctx.parent_node_key) (by simp [hb])
                      rw [hb] at hg
                      simp only [hg, hb] at hnf ⊢
                      cases w2 with
                      | some m => exact ih2 ctx rest imports (some m) st3 hnf
                      | none => exact ih2 ctx rest imports err st3 hnf
              · rw [if_neg hl] at hnf
                rw [if_neg hl, if_neg hl]
                exact ih2 ctx rest imports err st hnf
    -- fcb_build_core
    · intro ctx imports parent wdepth st hnf
      rw [fcb_build_core.eq_def] at hnf
      conv_lhs => rw [fcb_build_core.eq_def]
      conv_rhs => rw [fcb_build_core.eq_def]
      simp only [] at hnf ⊢
      exact ih4 ctx imports parent wdepth parent.block none st hnf
    -- fcb_walk_exprs
    · intro ctx imports parent wdepth es werr st hnf
      rw [fcb_walk_exprs.eq_def] at hnf
      conv_lhs => rw [fcb_walk_exprs.eq_def]
      conv_rhs => rw [fcb_walk_exprs.eq_def]
      simp only [] at hnf ⊢
      cases es with
      | nil => rfl
      | cons e rest =>
        cases he : fcb_walk_expr f ctx imports parent wdepth e werr st with
        | error er =>
          by_cases hfe : er = .fuelOut
          · subst hfe
            simp only [he] at hnf
            exact absurd rfl hnf
          · have hg := ih5 ctx imports parent wdepth e werr st
              (by simp [he, hfe])
            rw [he] at hg
            simp only [hg, he]
        | ok pr =>
          obtain ⟨w2, s2⟩ := pr
          have hg := ih5 ctx imports parent wdepth e werr st (by simp [he])
          rw [he] at hg
          simp only [hg, he] at hnf ⊢
          exact ih4 ctx imports parent wdepth rest w2 s2 hnf
    -- fcb_walk_expr
    · intro ctx imports parent wdepth e werr st hnf
      rw [fcb_walk_expr_succ] at hnf
      conv_lhs => rw [fcb_walk_expr_succ]
      conv_rhs => rw [fcb_walk_expr_succ]
      simp only [] at hnf ⊢
      cases e with
      | pathE segs sp => rfl
      | methodCallE recv mname args sp =>
        cases hr : fcb_walk_expr f ctx imports parent wdepth recv werr st with
        | error er =>
          by_cases hfe : er = .fuelOut
          · subst hfe
            simp only [hr] at hnf
            exact absurd rfl hnf
          · have hg := ih5 ctx imports parent wdepth recv werr st
              (by simp [hr, hfe])
            rw [hr] at hg
            simp only [hg, hr]
        | ok pr =>
          obtain ⟨w2, s2⟩ := pr
          have hg := ih5 ctx imports parent wdepth recv werr st (by simp [hr])
          rw [hr] at hg
          simp only [hg, hr] at hnf ⊢
          exact ih4 ctx imports parent wdepth args w2 s2 hnf
      | callE fe args sp =>
        have hsub : ∀ (w0 : Option String) (s0 : BuildState),
            (match fcb_walk_expr f ctx imports parent wdepth fe w0 s0 with
              | Except.error er => Except.error er
              | Except.ok (w3, s3) =>
                fcb_walk_exprs f ctx imports parent wdepth args w3 s3)
              ≠ .error .fuelOut →
            (match fcb_walk_expr (f + 1) ctx imports parent wdepth fe w0 s0 with
              | Except.error er => Except.error er
              | Except.ok (w3, s3) =>
                fcb_walk_exprs (f + 1) ctx imports parent wdepth args w3 s3)
              = (match fcb_walk_expr f ctx imports parent wdepth fe w0 s0 with
                | Except.error er => Except.error er
                | Except.ok (w3, s3) =>
                  fcb_walk_exprs f ctx imports parent wdepth args w3 s3) := by
          intro w0 s0 hh
          cases hf2 : fcb_walk_expr f ctx imports parent wdepth fe w0 s0 with
          | error er =>
            by_cases hfe : er = .fuelOut
            · subst hfe
              simp only [hf2] at hh
              exact absurd rfl hh
            · have hg := ih5 ctx imports parent wdepth fe w0 s0
                (by simp [hf2, hfe])
              rw [hf2] at hg
              simp only [hg, hf2]
          | ok pr =>
            obtain ⟨w3, s3⟩ := pr
            have hg := ih5 ctx imports parent wdepth fe w0 s0 (by simp [hf2])
            rw [hf2] at hg
            simp only [hg, hf2] at hh ⊢
            exact ih4 ctx imports parent wdepth args w3 s3 hh
        cases fe with
        | callE f2 a2 sp2 => exact hsub werr st hnf
        | methodCallE r2 m2 a2 sp2 => exact hsub werr st hnf
        | pathE segments psp =>
          cases hpi : pathGetIdent segments with
          | some ident =>
            simp only [hpi] at hnf ⊢
            cases hh : fcb_handle_fn_call f ctx imports parent wdepth ident
                (CallNode.ofExprPathIdent ident psp) werr st with
            | error er =>
              by_cases hfe : er = .fuelOut
              · subst hfe
                simp only [hh] at hnf
                exact absurd rfl hnf
              · have hg := ih7 ctx imports parent wdepth ident
                  (CallNode.ofExprPathIdent ident psp) werr st
                  (by simp [hh, hfe])
                rw [hh] at hg
                simp only [hg, hh]
            | ok pr =>
              obtain ⟨w2, s2⟩ := pr
              have hg := ih7 ctx imports parent wdepth ident
                (CallNode.ofExprPathIdent ident psp) werr st (by simp [hh])
              rw [hh] at hg
              simp only [hg, hh] at hnf ⊢
              exact hsub w2 s2 hnf
          | none =>
            match segments with
            | [] =>
              simp only [hpi] at hnf ⊢
              exact hsub werr st hnf
            | [a] => simp [pathGetIdent] at hpi
            | a :: b :: c :: t =>
              simp only [hpi] at hnf ⊢
              exact hsub werr st hnf
            | [a, b] =>
              simp only [hpi] at hnf ⊢
              by_cases ha : a = "Self"
              · rw [if_pos ha] at hnf
                rw [if_pos ha, if_pos ha]
                cases parent with
                | fnNode f0 k0 =>
                  simp only at hnf ⊢
                  exact hsub werr st hnf
                | methodNode mi ibl k0 =>
                  simp only [ParentNode.node_key] at hnf ⊢
                  cases hl : self_call_loop f ctx imports (.methodNode mi ibl k0) wdepth
                      ibl ibl.items b k0 werr st with
                  | error er =>
                    by_cases hfe : er = .fuelOut
                    · subst hfe
                      simp only [hl] at hnf
                      exact absurd rfl hnf
                    · have hg := ih6 ctx imports (.methodNode mi ibl k0) wdepth ibl
                        ibl.items b k0 werr st
                        (by simp [hl, hfe])
                      rw [hl] at hg
                      simp only [hg, hl]
                  | ok tr =>
                    obtain ⟨flag, w2, s2⟩ := tr
                    have hg := ih6 ctx imports (.methodNode mi ibl k0) wdepth ibl
                      ibl.items b k0 werr st (by simp [hl])
                    rw [hl] at hg
                    simp only [hg, hl] at hnf ⊢
                    cases flag with
                    | true => rfl
                    | false =>
                      simp only at hnf ⊢
                      exact hsub w2 s2 hnf
              · rw [if_neg ha] at hnf
                rw [if_neg ha, if_neg ha]
                cases hg : imports.get a with
                | none =>
                  simp only [hg] at hnf ⊢
                  exact hsub werr st hnf
                | some imp =>
                  cases imp with
                  | externalImp e0 =>
                    simp only [hg] at hnf ⊢
                    exact hsub werr st hnf
                  | localImp li =>
                    simp only [hg] at hnf ⊢
                    cases hb : cgb_build_core f
                        { fs := ctx.fs, manifest := ctx.manifest
                          entry_file := li.module_file_path
                          entrypoint := .methodCall a b
                          parent_node_key := some parent.node_key
                          depth := wdepth + 1 } st with
                    | error er =>
                      by_cases hfe : er = .fuelOut
                      · subst hfe
                        simp only [hb] at hnf
                        exact absurd rfl hnf
                      · have hgc := ih1
                          { fs := ctx.fs, manifest := ctx.manifest
                            entry_file := li.module_file_path
                            entrypoint := .methodCall a b
                            parent_node_key := some parent.node_key
                            depth := wdepth + 1 } st
                          (by simp [hb, hfe])
                        rw [hb] at hgc
                        simp only [hgc, hb]
                    | ok pr =>
                      obtain ⟨w2, s2⟩ := pr
                      have hgc := ih1
                        { fs := ctx.fs, manifest := ctx.manifest
                          entry_file := li.module_file_path
                          entrypoint := .methodCall a b
                          parent_node_key := some parent.node_key
                          depth := wdepth + 1 } st (by simp [hb])
                      rw [hb] at hgc
                      simp only [hgc, hb] at hnf ⊢
                      cases w2 with
                      | some m => rfl
                      | none =>
                        simp only at hnf ⊢
                        exact hsub werr s2 hnf
    -- self_call_loop
    · intro ctx imports parent wdepth impl_block iitems method pnk werr st hnf
      rw [self_call_loop.eq_def] at hnf
      conv_lhs => rw [self_call_loop.eq_def]
      conv_rhs => rw [self_call_loop.eq_def]
      simp only [] at hnf ⊢
      cases iitems with
      | nil => rfl
      | cons ii irest =>
        cases ii with
        | otherItem =>
          simp only [] at hnf ⊢
          exact ih6 ctx imports parent wdepth impl_block irest method pnk werr st hnf
        | fnItem method_node =>
          simp only [] at hnf ⊢
          by_cases hmn : method_node.ident = method
          · rw [if_pos hmn] at hnf
            rw [if_pos hmn, if_pos hmn]
            by_cases hck : containsKey st.nodes_map
                ((rust_replace (joinColons ctx.entry_file) ".rs" "") ++ "::" ++
                  (match ctx.entrypoint with
                   | .func f2 => f2
                   | .methodCall target_struct m2 => target_struct ++ "::" ++ m2)) = true
            · rw [if_pos hck, if_pos hck]
            · rw [if_neg hck] at hnf
              rw [if_neg hck, if_neg hck]
              cases hb : fcb_build_core f ctx imports
                  (.methodNode method_node impl_block
                    ((rust_replace (joinColons ctx.entry_file) ".rs" "") ++ "::" ++
                      (match ctx.entrypoint with
                       | .func f2 => f2
                       | .methodCall target_struct m2 => target_struct ++ "::" ++ m2)))
                  (wdepth + 1)
                  (registerNode st
                    ((rust_replace (joinColons ctx.entry_file) ".rs" "") ++ "::" ++
                      (match ctx.entrypoint with
                       | .func f2 => f2
                       | .methodCall target_struct m2 => target_struct ++ "::" ++ m2))
                    (CallNode.ofImplMethod method_node impl_block) (some pnk)) with
              | error er =>
                by_cases hfe : er = .fuelOut
                · subst hfe
                  simp only [hb] at hnf
                  exact absurd rfl hnf
                · have hg := ih3 ctx imports
                    (.methodNode method_node impl_block
                      ((rust_replace (joinColons ctx.entry_file) ".rs" "") ++ "::" ++
                        (match ctx.entrypoint with
                         | .func f2 => f2
                         | .methodCall target_struct m2 => target_struct ++ "::" ++ m2)))
                    (wdepth + 1)
                    (registerNode st
                      ((rust_replace (joinColons ctx.entry_file) ".rs" "") ++ "::" ++
                        (match ctx.entrypoint with
                         | .func f2 => f2
                         | .methodCall target_struct m2 => target_struct ++ "::" ++ m2))
                      (CallNode.ofImplMethod method_node impl_block) (some pnk))
                    (by simp [hb, hfe])
                  rw [hb] at hg
                  simp only [hg, hb]
              | ok pr =>
                obtain ⟨w2, st3⟩ := pr
                have hg := ih3 ctx imports
                  (.methodNode method_node impl_block
                    ((rust_replace (joinColons ctx.entry_file) ".rs" "") ++ "::" ++
                      (match ctx.entrypoint with
                       | .func f2 => f2
                       | .methodCall target_struct m2 => target_struct ++ "::" ++ m2)))
                  (wdepth + 1)
                  (registerNode st
                    ((rust_replace (joinColons ctx.entry_file) ".rs" "") ++ "::" ++
                      (match ctx.entrypoint with
                       | .func f2 => f2
                       | .methodCall target_struct m2 => target_struct ++ "::" ++ m2))
                    (CallNode.ofImplMethod method_node impl_block) (some pnk))
                  (by simp [hb])
                rw [hb] at hg
                simp only [hg, hb]
          · rw [if_neg hmn] at hnf
            rw [if_neg hmn, if_neg hmn]
            exact ih6 ctx imports parent wdepth impl_block irest method pnk werr st hnf
    -- fcb_handle_fn_call
    · intro ctx imports parent wdepth ident cn werr st hnf
      rw [fcb_handle_fn_call.eq_def] at hnf
      conv_lhs => rw [fcb_handle_fn_call.eq_def]
      conv_rhs => rw [fcb_handle_fn_call.eq_def]
      simp only [] at hnf ⊢
      cases hg : imports.get ident with
      | none => simp only [hg]
      | some imp =>
        cases imp with
        | localImp li =>
          simp only [hg] at hnf ⊢
          cases hb : cgb_build_core f
              { fs := ctx.fs, manifest := ctx.manifest
                entry_file := li.module_file_path
                entrypoint := .func ident
                parent_node_key := some parent.node_key
                depth := wdepth + 1 } st with
          | error er =>
            by_cases hfe : er = .fuelOut
            · subst hfe
              simp only [hb] at hnf
              exact absurd rfl hnf
            · have hgc := ih1
                { fs := ctx.fs, manifest := ctx.manifest
                  entry_file := li.module_file_path
                  entrypoint := .func ident
                  parent_node_key := some parent.node_key
                  depth := wdepth + 1 } st
                (by simp [hb, hfe])
              rw [hb] at hgc
              simp only [hgc, hb]
          | ok pr =>
            obtain ⟨w2, s2⟩ := pr
            have hgc := ih1
              { fs := ctx.fs, manifest := ctx.manifest
                entry_file := li.module_file_path
                entrypoint := .func ident
                parent_node_key := some parent.node_key
                depth := wdepth + 1 } st (by simp [hb])
            rw [hb] at hgc
            simp only [hgc, hb]
        | externalImp e0 =>
          simp only [hg]

/-- Corollary of `build_fuel_mono`: a run of `cgb_build_core` that does not
exhaust its fuel computes the same result at every larger fuel. -/
theorem cgb_build_core_mono_ge (ctx : CGBCtx) (st : BuildState) (f1 f2 : Nat)
    (hle : f1 ≤ f2) (hnf : cgb_build_core f1 ctx st ≠ .error .fuelOut) :
    cgb_build_core f2 ctx st = cgb_build_core f1 ctx st := by
  induction f2 with
  | zero =>
    have : f1 = 0 := Nat.le_zero.mp hle
    rw [this]
  | succ k ih =>
    rcases Nat.lt_or_ge f1 (k + 1) with h | h
    · have h1 : f1 ≤ k := Nat.lt_succ_iff.mp h
      have hk := ih h1
      have hk' : cgb_build_core k ctx st ≠ .error .fuelOut := by
        rw [hk]; exact hnf
      rw [(build_fuel_mono k).1 ctx st hk', hk]
    · have : f1 = k + 1 := Nat.le_antisymm hle h
      rw [this]

/-- Claim C2: the spec's mutual-recursion fixture (`fn a { b() }` in
`src/a_file.rs` and `fn b { a() }` in `src/b_file.rs`, entered at `a`)
terminates for every fuel bound of at least 30 and yields the finite two-vertex, one-edge graph: the re-entrant
build of `a` (visible as the third entry of the read trace) finds
`src::a_file::a` already registered and descends no further. -/
theorem c2_mutual_recursion_terminates (fuel : Nat) (hf : 30 ≤ fuel) :
    (cgb_build fuel fsMutual dmanifest ["src", "a_file.rs"] (.func "a")
        none 0 initState).map
        (fun st => (st.graph.nodes, st.graph.edges, st.files_read)) =
      .ok (["src::a_file::a", "src::b_file::b"], [(0, 1)],
        [["src", "a_file.rs"], ["src", "b_file.rs"], ["src", "a_file.rs"]]) := by
  have hcore := cgb_build_core_mono_ge
    { fs := fsMutual, manifest := dmanifest, entry_file := ["src", "a_file.rs"]
      entrypoint := .func "a", parent_node_key := none, depth := 0 }
    initState 30 fuel hf (by decide)
  simp only [cgb_build, hcore]
  decide

theorem c2_mutual_recursion_terminates_witness :
    30 ≤ 30 ∧
    (cgb_build 30 fsMutual dmanifest ["src", "a_file.rs"] (.func "a")
        none 0 initState).map
        (fun st => (st.graph.nodes, st.graph.edges, st.files_read)) =
      .ok (["src::a_file::a", "src::b_file::b"], [(0, 1)],
        [["src", "a_file.rs"], ["src", "b_file.rs"], ["src", "a_file.rs"]]) :=
  ⟨by decide, c2_mutual_recursion_terminates 30 (by decide)⟩

/-- Claim C8: on `use std::fs::read_to_string; fn main() { read_to_string() }`
the claim expects two vertices (`main` and an external leaf
`std::fs::read_to_string`) and one edge.  The code instead keys the
external import by its *first* segment (`ExternalImport::new` stores
`path_segments[0]`, here `std`), so the lookup of `read_to_string` in
the import map fails and the call is silently ignored: one vertex, no edge —
and no file is read beyond the entry file. -/
theorem c8_external_call_eval :
    (cgb_build 20 fsExternalCall dmanifest ["src", "main.rs"] (.func "main")
        none 0 initState).map
        (fun st => (st.graph.nodes, st.graph.edges, st.files_read)) =
      .ok (["src::main::main"], [], [["src", "main.rs"]]) ∧
    ExternalImport.new ["std", "fs", "read_to_string"] =
      .ok { identifier := "std", full_path := "std::fs::read_to_string" } := by
  exact ⟨by decide, by decide⟩

/-- Claim C4 (counterexample): on a file containing `use foo::*;` the build
does not fail with an error-valued result: it aborts with the `todo!` panic
`not yet implemented: not sure how to handle glob and rename yet`, so the
unsupported-import condition is a process panic, not a propagated build
error. -/
theorem c4_unsupported_import_counterexample :
    cgb_build 10 fsGlob dmanifest ["src", "main.rs"] (.func "main") none 0 initState
      = .error (.panicE unsupportedImportMsg) ∧
    ∀ msg, cgb_build 10 fsGlob dmanifest ["src", "main.rs"] (.func "main") none 0 initState
      ≠ .error (.errE msg) := by
  refine ⟨by decide, ?_⟩
  intro msg h
  rw [show cgb_build 10 fsGlob dmanifest ["src", "main.rs"] (.func "main") none 0 initState
    = .error (.panicE unsupportedImportMsg) from by decide] at h
  simp [unsupportedImportMsg] at h

/-- Claim C4 (amended): glob and renamed imports make import processing
fail immediately with the explicit `todo!` panic
`not yet implemented: not sure how to handle glob and rename yet`, which
aborts the whole build — the unsupported forms are never silently
approximated, but the failure is a process panic rather than an
error-valued build result. -/
theorem c4_unsupported_import_amended :
    (∀ (fs : Fsys) (manifest : Manifest) (ef : FsPath) (pre : List String)
        (imports : ImportMap),
      process_use_tree fs manifest ef .glob pre imports
        = (imports, some (.panicE unsupportedImportMsg))) ∧
    (∀ (fs : Fsys) (manifest : Manifest) (ef : FsPath) (pre : List String)
        (imports : ImportMap) (a b : String),
      process_use_tree fs manifest ef (.rename a b) pre imports
        = (imports, some (.panicE unsupportedImportMsg))) ∧
    (∀ (fuel : Nat) (fs : Fsys) (manifest : Manifest) (ef : FsPath) (ep : EntryPoint)
        (pk : Option String) (d : Nat) (st : BuildState) (tree : UseTree) (rest : List Item),
      2 ≤ fuel →
      fs.readFile ef = some ⟨.useItem tree :: rest⟩ →
      (process_use_tree fs manifest ef tree [] ImportMap.new).2
        = some (.panicE unsupportedImportMsg) →
      cgb_build fuel fs manifest ef ep pk d st = .error (.panicE unsupportedImportMsg)) := by
  refine ⟨fun _ _ _ _ _ => rfl, fun _ _ _ _ _ _ _ => rfl, ?_⟩
  intro fuel fs manifest ef ep pk d st tree rest hf hread hpanic
  obtain ⟨f, rfl⟩ : ∃ f, fuel = f + 2 := ⟨fuel - 2, by omega⟩
  rcases hp : process_use_tree fs manifest ef tree [] ImportMap.new with ⟨m2, e2⟩
  rw [hp] at hpanic
  simp only at hpanic
  subst hpanic
  simp [cgb_build, cgb_build_core, visit_items, hread, hp]

/-- Witness for C4 (amended) at a concrete input. -/
theorem c4_unsupported_import_amended_witness :
    cgb_build 10 fsGlob dmanifest ["src", "main.rs"] (.func "other") none 0 initState
      = .error (.panicE unsupportedImportMsg) :=
  c4_unsupported_import_amended.2.2 10 fsGlob dmanifest ["src", "main.rs"] (.func "other")
    none 0 initState (.path "foo" .glob) [] (by omega) rfl rfl

/-- Claim C10: whenever an import path starts with `crate`, `self` or
`super` and the manifest exposes no package name, `resolve_import` panics
on the `unwrap` of `package_name()` (the `None` case is unwrapped, not
handled), for every file system and entry file. -/
theorem c10_missing_package_name_panics
    (fs : Fsys) (ef : FsPath) (path : List String) (first : String)
    (hh : path.head? = some first)
    (hc : first = "crate" ∨ first = "self" ∨ first = "super") :
    resolve_import fs ⟨none⟩ ef path =
      .error (.panicE "called `Option::unwrap()` on a `None` value") := by
  cases path with
  | nil => simp at hh
  | cons a rest =>
    have ha : a = first := by simpa using hh
    subst ha
    simp only [resolve_import, List.head?_cons]
    rw [if_pos hc]
    rfl

/-- Witness for C10 at a concrete input. -/
theorem c10_missing_package_name_panics_witness :
    resolve_import fsNone ⟨none⟩ ["src", "main.rs"] ["self", "helper"] =
      .error (.panicE "called `Option::unwrap()` on a `None` value") :=
  c10_missing_package_name_panics fsNone ["src", "main.rs"] ["self", "helper"] "self"
    rfl (Or.inr (Or.inl rfl))

/-- Claim C9 (counterexample): a two-segment path with Local first segment
does not always panic — on a file system with no `src` ancestor,
`use crate::foo` makes the base-directory lookup fail first, so resolution
returns an ordinary error instead of panicking. -/
theorem c9_two_segment_counterexample :
    resolve_import fsNone dmanifest ["src", "main.rs"] ["crate", "foo"]
      = .error (.errE "failed to resolve import module path or crate::foo") ∧
    ∀ msg, resolve_import fsNone dmanifest ["src", "main.rs"] ["crate", "foo"]
      ≠ .error (.panicE msg) := by
  refine ⟨by decide, ?_⟩
  intro msg h
  rw [show resolve_import fsNone dmanifest ["src", "main.rs"] ["crate", "foo"]
    = .error (.errE "failed to resolve import module path or crate::foo") from by decide] at h
  simp at h

/-- Claim C9 (amended): a two-segment import path with Local first segment
panics with the slice-range panic whenever the base-directory step
succeeds — always for `self` paths, for `crate` paths when some ancestor
of the base directory contains a `src` directory, and for `super` paths
when the base directory is nonempty — because `try_new` drops the last
segment and `resolve_import_module_path` then slices `[1..0]` on the
one-element remainder.  (When the base-directory step fails, resolution
returns an error before reaching the slice.) -/
theorem c9_two_segment_amended :
    (∀ (fs : Fsys) (base : FsPath) (crate_name x : String), crate_name ≠ "self" →
      LocalImport.try_new fs ["self", x] base crate_name =
        .error (.panicE "slice index starts at 1 but ends at 0")) ∧
    (∀ (fs : Fsys) (base : FsPath) (crate_name x : String),
      ((ancestorsOf base).find? (fun d => fs.pathExists (d ++ ["src"]))).isSome = true →
      LocalImport.try_new fs ["crate", x] base crate_name =
        .error (.panicE "slice index starts at 1 but ends at 0")) ∧
    (∀ (fs : Fsys) (a : String) (t : FsPath) (crate_name x : String), crate_name ≠ "super" →
      LocalImport.try_new fs ["super", x] (a :: t) crate_name =
        .error (.panicE "slice index starts at 1 but ends at 0")) := by
  refine ⟨?_, ?_, ?_⟩
  · intro fs base crate_name x hc
    have hne : ¬(("self" : String) = crate_name ∨ ("self" : String) = "crate") := by
      rintro (h | h)
      · exact hc h.symm
      · exact absurd h (by decide)
    have hr : resolve_import_module_path fs ["self"] base crate_name =
        .error (.panicE "slice index starts at 1 but ends at 0") := by
      simp only [resolve_import_module_path, List.head?_cons]
      rw [if_neg hne, if_pos trivial]
      rfl
    simp only [LocalImport.try_new]
    rw [if_neg (by simp : ¬(["self", x] : List String).length = 0)]
    have hdl : (["self", x] : List String).dropLast = ["self"] := rfl
    rw [hdl, hr]
  · intro fs base crate_name x hfind
    obtain ⟨d, hd⟩ := Option.isSome_iff_exists.mp hfind
    have hr : resolve_import_module_path fs ["crate"] base crate_name =
        .error (.panicE "slice index starts at 1 but ends at 0") := by
      simp only [resolve_import_module_path, List.head?_cons]
      rw [if_pos (Or.inr (by trivial)), hd]
      rfl
    simp only [LocalImport.try_new]
    rw [if_neg (by simp : ¬(["crate", x] : List String).length = 0)]
    have hdl : (["crate", x] : List String).dropLast = ["crate"] := rfl
    rw [hdl, hr]
  · intro fs a t crate_name x hc
    have hne : ¬(("super" : String) = crate_name ∨ ("super" : String) = "crate") := by
      rintro (h | h)
      · exact hc h.symm
      · exact absurd h (by decide)
    have hr : resolve_import_module_path fs ["super"] (a :: t) crate_name =
        .error (.panicE "slice index starts at 1 but ends at 0") := by
      simp only [resolve_import_module_path, List.head?_cons]
      rw [if_neg hne]
      rw [if_neg (show ¬(("super" : String) = "self") by decide)]
      rw [if_pos trivial]
      rfl
    simp only [LocalImport.try_new]
    rw [if_neg (by simp : ¬(["super", x] : List String).length = 0)]
    have hdl : (["super", x] : List String).dropLast = ["super"] := rfl
    rw [hdl, hr]

/-- Witness for C9 (amended) at a concrete input. -/
theorem c9_two_segment_amended_witness :
    LocalImport.try_new fsNone ["self", "helper"] ["src"] "docgen" =
      .error (.panicE "slice index starts at 1 but ends at 0") :=
  c9_two_segment_amended.1 fsNone ["src"] "docgen" "helper" (by decide)

/-- Claim C5 (counterexample): the path `self::x` starts with `self` (a
Local first segment) yet is not classified Local: resolution panics on the
slice bug before producing any classification. -/
theorem c5_local_external_counterexample :
    resolve_import fsNone dmanifest ["src", "main.rs"] ["self", "x"]
      = .error (.panicE "slice index starts at 1 but ends at 0") ∧
    ∀ li, resolve_import fsNone dmanifest ["src", "main.rs"] ["self", "x"]
      ≠ .ok (.localImp li) := by
  refine ⟨by decide, ?_⟩
  intro li h
  rw [show resolve_import fsNone dmanifest ["src", "main.rs"] ["self", "x"]
    = .error (.panicE "slice index starts at 1 but ends at 0") from by decide] at h
  simp at h

/-- Claim C5 (amended): a dotted import path whose first segment is *not*
`crate`/`self`/`super`/the snake-cased package name is always classified
External (with the full dotted path kept verbatim), for every file system
— so no file resolution is attempted for it; conversely a Local
classification implies the first segment is in that set; and an
External import in `handle_fn_call` never reads another file (its `files_read`
trace is untouched; the external branch spawns no recursive builder).
When the first segment *is* in the set, the code attempts Local
resolution, which may end in an error or panic instead of a Local
classification. -/
theorem c5_local_external_amended :
    (∀ (fs : Fsys) (manifest : Manifest) (ef : FsPath) (path : List String) (first : String),
      path.head? = some first →
      first ∉ localFirstSegs manifest →
      resolve_import fs manifest ef path = .ok (.externalImp ⟨first, joinColons path⟩)) ∧
    (∀ (fs : Fsys) (manifest : Manifest) (ef : FsPath) (path : List String) (li : LocalImport),
      resolve_import fs manifest ef path = .ok (.localImp li) →
      ∃ first, path.head? = some first ∧ first ∈ localFirstSegs manifest) ∧
    (∀ (fuel : Nat) (ctx : CGBCtx) (imports : ImportMap) (parent : ParentNode)
        (wdepth : Nat) (ident : String) (cn : CallNode) (werr : Option String)
        (st : BuildState) (e : ExternalImport),
      imports.get ident = some (.externalImp e) →
      ∃ st2, fcb_handle_fn_call (fuel + 1) ctx imports parent wdepth ident cn werr st
          = .ok (werr, st2) ∧ st2.files_read = st.files_read) := by
  refine ⟨?_, ?_, ?_⟩
  · intro fs manifest ef path first hh hmem
    cases path with
    | nil => simp at hh
    | cons a rest =>
      have ha : a = first := by simpa using hh
      subst ha
      have h1 : ¬(a = "crate" ∨ a = "self" ∨ a = "super") := by
        rintro (h | h | h) <;> subst h <;> exact hmem (by simp [localFirstSegs])
      have h2 : ¬(some a = manifest.package_name.map (fun n => to_snake_case n)) := by
        intro he
        cases hp : manifest.package_name with
        | none => rw [hp] at he; simp at he
        | some n =>
          rw [hp] at he
          have : a = to_snake_case n := by simpa using he
          exact hmem (by simp [localFirstSegs, hp, this])
      simp only [resolve_import, List.head?_cons]
      rw [if_neg h1, if_neg h2]
      rfl
  · intro fs manifest ef path li h
    cases path with
    | nil =>
      rw [show resolve_import fs manifest ef [] =
        .error (.panicE "index out of bounds: the len is 0 but the index is 0") from rfl] at h
      simp at h
    | cons a rest =>
      refine ⟨a, rfl, ?_⟩
      simp only [resolve_import, List.head?_cons] at h
      by_cases hc1 : a = "crate" ∨ a = "self" ∨ a = "super"
      · rcases hc1 with h1 | h1 | h1 <;> subst h1 <;> simp [localFirstSegs]
      · rw [if_neg hc1] at h
        by_cases hc2 : some a = manifest.package_name.map (fun n => to_snake_case n)
        · cases hp : manifest.package_name with
          | none => rw [hp] at hc2; simp at hc2
          | some n =>
            rw [hp] at hc2
            have : a = to_snake_case n := by simpa using hc2
            simp [localFirstSegs, hp, this]
        · rw [if_neg hc2] at h
          rw [show ExternalImport.new (a :: rest)
            = .ok { identifier := a, full_path := joinColons (a :: rest) } from rfl] at h
          simp at h
  · intro fuel ctx imports parent wdepth ident cn werr st e himp
    simp only [fcb_handle_fn_call, himp]
    by_cases hck : containsKey st.nodes_map e.full_path = true
    · rw [if_pos hck]
      exact ⟨st, rfl, rfl⟩
    · rw [if_neg hck]
      exact ⟨registerNode st e.full_path cn (some parent.node_key), rfl, rfl⟩

/-- For paths of at least two segments the code's directory resolution
agrees with the spec's description (no slice panic is reachable); shared
helper for the C6 theorems. -/
theorem resolve_module_path_eq_spec :
    ∀ (fs : Fsys) (handed : List String) (base : FsPath) (crate_name : String),
      2 ≤ handed.length →
      resolve_import_module_path fs handed base crate_name =
        .ok (spec_local_module_resolution fs handed base crate_name) := by
  intro fs handed base crate_name hlen
  match handed, hlen with
  | a :: b :: t, _ =>
    have hne : (a :: b :: t) ≠ [] := by simp
    obtain ⟨m, hlast⟩ : ∃ m, (a :: b :: t).getLast? = some m :=
      ⟨_, List.getLast?_eq_getLast_of_ne_nil hne⟩
    simp only [resolve_import_module_path, spec_local_module_resolution, List.head?_cons, hlast]
    by_cases hc1 : a = crate_name ∨ a = "crate"
    · rw [if_pos hc1, if_pos hc1]
      cases hfind : ((ancestorsOf base).find? fun d => fs.pathExists (d ++ ["src"])) with
      | none => simp [hfind]
      | some d =>
        simp [hfind, Nat.sub_sub]
        split_ifs <;> rfl
    · rw [if_neg hc1, if_neg hc1]
      by_cases hc2 : a = "self"
      · rw [if_pos hc2, if_pos hc2]
        simp [Nat.sub_sub]
        split_ifs <;> rfl
      · rw [if_neg hc2, if_neg hc2]
        by_cases hc3 : a = "super"
        · rw [if_pos hc3, if_pos hc3]
          cases hp : parentDir base with
          | none => simp [hp]
          | some pp =>
            simp [hp, Nat.sub_sub]
            try split_ifs <;> rfl
        · rw [if_neg hc3, if_neg hc3]

/-- Claim C6 (counterexample): for the two-segment Local import `self::x`
the path handed to directory resolution is the one-element `["self"]`;
the claim says resolution should return `self.rs` (which exists here) or
`self/mod.rs` or fail with an error — instead the code panics on the
slice `[1..0]`, returning neither a value nor an error. -/
theorem c6_local_resolution_counterexample :
    LocalImport.try_new fsSelfRs ["self", "x"] ["src"] "docgen"
      = .error (.panicE "slice index starts at 1 but ends at 0") ∧
    spec_local_module_resolution fsSelfRs ["self"] ["src"] "docgen"
      = some ["src", "self.rs"] ∧
    (∀ li, LocalImport.try_new fsSelfRs ["self", "x"] ["src"] "docgen" ≠ .ok li) ∧
    (∀ msg, LocalImport.try_new fsSelfRs ["self", "x"] ["src"] "docgen"
      ≠ .error (.errE msg)) := by
  refine ⟨by decide, by decide, ?_, ?_⟩
  · intro li h
    rw [show LocalImport.try_new fsSelfRs ["self", "x"] ["src"] "docgen"
      = .error (.panicE "slice index starts at 1 but ends at 0") from by decide] at h
    simp at h
  · intro msg h
    rw [show LocalImport.try_new fsSelfRs ["self", "x"] ["src"] "docgen"
      = .error (.panicE "slice index starts at 1 but ends at 0") from by decide] at h
    simp at h

/-- Claim C6 (amended): for every Local import path of at least three
segments (so the path handed to directory resolution keeps at least two),
directory resolution behaves exactly as the spec describes
(`spec_local_module_resolution`): the base directory comes from the first
segment, the interior segments are joined as sub-directories, and the
final segment — the module name — resolves to `<module>.rs` if it exists,
else `<module>/mod.rs` if it exists; `try_new` returns the
resolved import on success and otherwise fails with the
`failed to resolve import module path` error.  (Two-segment paths instead
hit the slice panic, claim C9.) -/
theorem c6_local_resolution_amended :
    (∀ (fs : Fsys) (handed : List String) (base : FsPath) (crate_name : String),
      2 ≤ handed.length →
      resolve_import_module_path fs handed base crate_name =
        .ok (spec_local_module_resolution fs handed base crate_name)) ∧
    (∀ (fs : Fsys) (segs : List String) (base : FsPath) (crate_name : String) (p : FsPath),
      3 ≤ segs.length →
      spec_local_module_resolution fs segs.dropLast base crate_name = some p →
      ∃ ident, segs.getLast? = some ident ∧
        LocalImport.try_new fs segs base crate_name =
          .ok { identifier := ident, full_path := joinColons segs, module_file_path := p }) ∧
    (∀ (fs : Fsys) (segs : List String) (base : FsPath) (crate_name : String),
      3 ≤ segs.length →
      spec_local_module_resolution fs segs.dropLast base crate_name = none →
      LocalImport.try_new fs segs base crate_name =
        .error (.errE ("failed to resolve import module path or " ++ joinColons segs))) := by
  refine ⟨resolve_module_path_eq_spec, ?_, ?_⟩
  · intro fs segs base crate_name p hlen hspec
    have hne : segs ≠ [] := by
      intro h
      rw [h] at hlen
      simp at hlen
    obtain ⟨ident, hident⟩ : ∃ i, segs.getLast? = some i :=
      ⟨_, List.getLast?_eq_getLast_of_ne_nil hne⟩
    have hdll : 2 ≤ segs.dropLast.length := by
      rw [List.length_dropLast]
      omega
    have h1 := resolve_module_path_eq_spec fs segs.dropLast base crate_name hdll
    rw [hspec] at h1
    refine ⟨ident, hident, ?_⟩
    simp only [LocalImport.try_new]
    rw [if_neg (by omega : ¬segs.length = 0)]
    simp only [h1, hident]
  · intro fs segs base crate_name hlen hspec
    have hdll : 2 ≤ segs.dropLast.length := by
      rw [List.length_dropLast]
      omega
    have h1 := resolve_module_path_eq_spec fs segs.dropLast base crate_name hdll
    rw [hspec] at h1
    simp only [LocalImport.try_new]
    rw [if_neg (by omega : ¬segs.length = 0)]
    simp only [h1]

/-- Witness for C6 (amended) at a concrete input (the `crate::b_file`
use of the mutual-recursion fixture). -/
theorem c6_local_resolution_amended_witness :
    resolve_import_module_path fsMutual ["crate", "b_file"] ["src"] "docgen"
      = .ok (spec_local_module_resolution fsMutual ["crate", "b_file"] ["src"] "docgen") :=
  c6_local_resolution_amended.1 fsMutual ["crate", "b_file"] ["src"] "docgen" (by decide)

/-- Witness for C5 (amended) at a concrete input. -/
theorem c5_local_external_amended_witness :
    resolve_import fsNone dmanifest ["src", "main.rs"] ["tokio", "spawn"]
      = .ok (.externalImp ⟨"tokio", joinColons ["tokio", "spawn"]⟩) :=
  c5_local_external_amended.1 fsNone dmanifest ["src", "main.rs"] ["tokio", "spawn"] "tokio"
    rfl (by decide)

/-- Claim C7 (counterexample): a file that parses successfully and has no
item matching the entry point does not always build to `Ok`: a
glob import in it panics the build first. -/
theorem c7_no_entry_match_counterexample :
    cgb_build 10 fsGlob dmanifest ["src", "main.rs"] (.func "absent") none 0 initState
      = .error (.panicE unsupportedImportMsg) ∧
    ∀ st2, cgb_build 10 fsGlob dmanifest ["src", "main.rs"] (.func "absent") none 0 initState
      ≠ .ok st2 := by
  refine ⟨by decide, ?_⟩
  intro st2 h
  rw [show cgb_build 10 fsGlob dmanifest ["src", "main.rs"] (.func "absent") none 0 initState
    = .error (.panicE unsupportedImportMsg) from by decide] at h
  simp at h

/-- If an impl block has no method of the given name, the `for` loop of
`visit_item_impl` (modelled by `find_impl_method`) finds nothing. -/
theorem find_impl_method_eq_none (items : List ImplItem) (m : String)
    (h : implHasMethod items m = false) : find_impl_method items m = none := by
  induction items with
  | nil => rfl
  | cons it rest ih =>
    cases it with
    | otherItem =>
      simp only [implHasMethod, List.any_cons, Bool.or_eq_false_iff] at h
      simpa [find_impl_method, implHasMethod] using ih h.2
    | fnItem f =>
      simp only [implHasMethod, List.any_cons, Bool.or_eq_false_iff] at h
      have hne : ¬(f.ident = m) := by simpa using h.1
      simp only [find_impl_method, if_neg hne]
      simpa [implHasMethod] using ih h.2

/-- Scanning a file whose items never match the entry point (and whose
use-items all process cleanly) is a no-op on the state: no vertex, edge,
or registry entry is created, no error is stored, and the scan returns
whatever import map it accumulated. -/
theorem visit_items_no_match :
    ∀ (items : List Item) (fuel : Nat) (ctx : CGBCtx) (imports : ImportMap)
      (err : Option String) (st : BuildState),
      (∀ t, Item.useItem t ∈ items → ∀ im : ImportMap,
        (process_use_tree ctx.fs ctx.manifest ctx.entry_file t [] im).2 = none) →
      (∀ it, it ∈ items → itemMatches ctx.entrypoint it = false) →
      items.length + 1 ≤ fuel →
      ∃ m2, visit_items fuel ctx items imports err st = .ok (m2, err, st) := by
  intro items
  induction items with
  | nil =>
    intro fuel ctx imports err st _ _ hf
    obtain ⟨f, rfl⟩ : ∃ f, fuel = f + 1 := ⟨fuel - 1, by omega⟩
    exact ⟨imports, rfl⟩
  | cons item rest ih =>
    intro fuel ctx imports err st himp hmatch hf
    obtain ⟨f, rfl⟩ : ∃ f, fuel = f + 1 := ⟨fuel - 1, by omega⟩
    have hfrest : rest.length + 1 ≤ f := by
      simp only [List.length_cons] at hf
      omega
    have himp2 : ∀ t, Item.useItem t ∈ rest → ∀ im : ImportMap,
        (process_use_tree ctx.fs ctx.manifest ctx.entry_file t [] im).2 = none :=
      fun t ht im => himp t (List.mem_cons_of_mem _ ht) im
    have hmatch2 : ∀ it, it ∈ rest → itemMatches ctx.entrypoint it = false :=
      fun it hit => hmatch it (List.mem_cons_of_mem _ hit)
    cases item with
    | useItem tree =>
      have hp := himp tree (List.mem_cons_self _ _) imports
      rcases hq : process_use_tree ctx.fs ctx.manifest ctx.entry_file tree [] imports
        with ⟨m2, e2⟩
      rw [hq] at hp
      simp only at hp
      subst hp
      obtain ⟨m3, hm3⟩ := ih f ctx m2 err st himp2 hmatch2 hfrest
      exact ⟨m3, by simp [visit_items, hq, hm3]⟩
    | fnItem fdef =>
      have hm := hmatch _ (List.mem_cons_self _ _)
      obtain ⟨m3, hm3⟩ := ih f ctx imports err st himp2 hmatch2 hfrest
      cases hep : ctx.entrypoint with
      | func s =>
        rw [hep] at hm
        have hneq : ¬(s = fdef.ident) := by simpa [itemMatches] using hm
        exact ⟨m3, by simp [visit_items, hep, hneq, hm3]⟩
      | methodCall ts ms =>
        exact ⟨m3, by simp [visit_items, hep, hm3]⟩
    | implItem ib =>
      obtain ⟨m3, hm3⟩ := ih f ctx imports err st himp2 hmatch2 hfrest
      cases hep : ctx.entrypoint with
      | func s =>
        exact ⟨m3, by simp [visit_items, hep, hm3]⟩
      | methodCall ts ms =>
        have hm := hmatch _ (List.mem_cons_self _ _)
        rw [hep] at hm
        cases hlast : ib.self_ty.getLast? with
        | none => exact ⟨m3, by simp [visit_items, hep, hlast, hm3]⟩
        | some l =>
          by_cases hl : l = ts
          · subst hl
            have hhm : implHasMethod ib.items ms = false := by
              simpa [itemMatches, hlast] using hm
            have hfind := find_impl_method_eq_none ib.items ms hhm
            exact ⟨m3, by simp [visit_items, hep, hlast, hfind, hm3]⟩
          · exact ⟨m3, by simp [visit_items, hep, hlast, hl, hm3]⟩

/-- Claim C7 (amended): a file that parses successfully, contains no item
matching the entry point, *and whose import statements all process without
failure*, makes the build step return `Ok` with no vertex, edge, or
registry entry created (only the read trace records the file).  The
extra import condition is forced by the counterexample: a non-matching file can
still fail on its imports. -/
theorem c7_no_entry_match_amended :
    ∀ (fuel : Nat) (fs : Fsys) (manifest : Manifest) (ef : FsPath) (ep : EntryPoint)
      (pk : Option String) (d : Nat) (st : BuildState) (items : List Item),
      fs.readFile ef = some ⟨items⟩ →
      (∀ t, Item.useItem t ∈ items → ∀ im : ImportMap,
        (process_use_tree fs manifest ef t [] im).2 = none) →
      (∀ it, it ∈ items → itemMatches ep it = false) →
      items.length + 2 ≤ fuel →
      cgb_build fuel fs manifest ef ep pk d st
        = .ok { st with files_read := st.files_read ++ [ef] } := by
  intro fuel fs manifest ef ep pk d st items hread himp hmatch hf
  obtain ⟨f, rfl⟩ : ∃ f, fuel = f + 1 := ⟨fuel - 1, by omega⟩
  obtain ⟨m2, hm2⟩ := visit_items_no_match items f ⟨fs, manifest, ef, ep, pk, d⟩
    ImportMap.new none { st with files_read := st.files_read ++ [ef] }
    himp hmatch (by simp at hf; omega)
  simp [cgb_build, cgb_build_core, hread, hm2]

/-- Witness for C7 (amended): an empty (but well-parsed) file builds to
`Ok` leaving everything but the read trace untouched. -/
theorem c7_no_entry_match_amended_witness :
    cgb_build 10 fsEmptyFile dmanifest ["src", "main.rs"] (.func "main") none 0 initState
      = .ok { initState with files_read := [["src", "main.rs"]] } :=
  c7_no_entry_match_amended 10 fsEmptyFile dmanifest ["src", "main.rs"] (.func "main") none 0 initState []
    rfl (fun t ht _ => absurd ht (by simp)) (fun it hit => absurd hit (by simp)) (by decide)

/-- `contains_key` after a registry insert. -/
theorem containsKey_cons (k2 : String) (key : String) (cn : CallNode)
    (m : List (String × CallNode)) :
    containsKey ((key, cn) :: m) k2 = ((key == k2) || containsKey m k2) := rfl

/-- Registering a node appends exactly one vertex with the given key
(adding an edge never changes the vertex list). -/
theorem registerNode_graph_nodes (st : BuildState) (key : String) (cn : CallNode)
    (pk : Option String) :
    (registerNode st key cn pk).graph.nodes = st.graph.nodes ++ [key] := by
  cases pk with
  | none => rfl
  | some p =>
    simp only [registerNode, CGraph.add_node]
    cases hl : indexLookup ((key, st.graph.nodes.length) :: st.nodes_index_map) p with
    | none => simp [hl]
    | some pidx => simp [hl, CGraph.add_edge]

/-- Registering a node prepends exactly one `nodes_map` binding. -/
theorem registerNode_nodes_map (st : BuildState) (key : String) (cn : CallNode)
    (pk : Option String) :
    (registerNode st key cn pk).nodes_map = (key, cn) :: st.nodes_map := rfl

/-- The registration sequence preserves the graph invariant whenever the
`contains_key` guard was consulted first and came back false. -/
theorem registerNode_inv (st : BuildState) (key : String) (cn : CallNode)
    (pk : Option String) (hck : containsKey st.nodes_map key = false)
    (hinv : GraphInv st) : GraphInv (registerNode st key cn pk) := by
  obtain ⟨hnd, hsub⟩ := hinv
  constructor
  · rw [registerNode_graph_nodes]
    have hkn : key ∉ st.graph.nodes := by
      intro hk
      rw [hsub key hk] at hck
      cases hck
    simp [List.nodup_append, hnd, hkn]
  · intro k2 hk2
    rw [registerNode_graph_nodes] at hk2
    rw [registerNode_nodes_map, containsKey_cons]
    rcases List.mem_append.mp hk2 with hx | hx
    · rw [hsub k2 hx]
      simp
    · have hke : k2 = key := by simpa using hx
      subst hke
      simp

/-- The heart of claim C3: every function of the mutually recursive build
— the builder, the item visitor, the call-site walker, the `Self::` loop
and `handle_fn_call` — preserves the graph invariant, because each of the
four vertex-insertion sites is guarded by a registry membership check.
Proved by induction on the fuel with one conjunct per function. -/
theorem build_preserves_inv :
    ∀ fuel : Nat,
      (∀ (ctx : CGBCtx) (st : BuildState) (r : Option String × BuildState),
        GraphInv st → cgb_build_core fuel ctx st = .ok r → GraphInv r.2) ∧
      (∀ (ctx : CGBCtx) (items : List Item) (imports : ImportMap) (err : Option String)
          (st : BuildState) (r : ImportMap × Option String × BuildState),
        GraphInv st → visit_items fuel ctx items imports err st = .ok r → GraphInv r.2.2) ∧
      (∀ (ctx : CGBCtx) (imports : ImportMap) (parent : ParentNode) (wdepth : Nat)
          (st : BuildState) (r : Option String × BuildState),
        GraphInv st → fcb_build_core fuel ctx imports parent wdepth st = .ok r →
        GraphInv r.2) ∧
      (∀ (ctx : CGBCtx) (imports : ImportMap) (parent : ParentNode) (wdepth : Nat)
          (es : List Expr) (werr : Option String) (st : BuildState)
          (r : Option String × BuildState),
        GraphInv st → fcb_walk_exprs fuel ctx imports parent wdepth es werr st = .ok r →
        GraphInv r.2) ∧
      (∀ (ctx : CGBCtx) (imports : ImportMap) (parent : ParentNode) (wdepth : Nat)
          (e : Expr) (werr : Option String) (st : BuildState)
          (r : Option String × BuildState),
        GraphInv st → fcb_walk_expr fuel ctx imports parent wdepth e werr st = .ok r →
        GraphInv r.2) ∧
      (∀ (ctx : CGBCtx) (imports : ImportMap) (parent : ParentNode) (wdepth : Nat)
          (impl_block : ItemImpl) (iitems : List ImplItem) (method : String)
          (pnk : String) (werr : Option String) (st : BuildState)
          (r : Bool × Option String × BuildState),
        GraphInv st →
        self_call_loop fuel ctx imports parent wdepth impl_block iitems method pnk werr st
          = .ok r → GraphInv r.2.2) ∧
      (∀ (ctx : CGBCtx) (imports : ImportMap) (parent : ParentNode) (wdepth : Nat)
          (ident : String) (cn : CallNode) (werr : Option String) (st : BuildState)
          (r : Option String × BuildState),
        GraphInv st → fcb_handle_fn_call fuel ctx imports parent wdepth ident cn werr st
          = .ok r → GraphInv r.2) := by
  intro fuel
  induction fuel with
  | zero =>
    refine ⟨?_, ?_, ?_, ?_, ?_, ?_, ?_⟩ <;> intros <;>
      simp_all [cgb_build_core, visit_items, fcb_build_core, fcb_walk_exprs, fcb_walk_expr,
        self_call_loop, fcb_handle_fn_call]
  | succ f ih =>
    obtain ⟨ih1, ih2, ih3, ih4, ih5, ih6, ih7⟩ := ih
    refine ⟨?_, ?_, ?_, ?_, ?_, ?_, ?_⟩
    -- cgb_build_core
    · intro ctx st r hinv h
      have hinvf : GraphInv { st with files_read := st.files_read ++ [ctx.entry_file] } :=
        hinv
      simp only [cgb_build_core] at h
      cases hread : ctx.fs.readFile ctx.entry_file with
      | none =>
        simp only [hread, Except.ok.injEq] at h
        subst h
        exact hinvf
      | some file =>
        simp only [hread] at h
        cases hv : visit_items f ctx file.items ImportMap.new none
            { st with files_read := st.files_read ++ [ctx.entry_file] } with
        | error e =>
          simp only [hv] at h
          simp at h
        | ok t3 =>
          obtain ⟨m2, e2, st3⟩ := t3
          simp only [hv, Except.ok.injEq] at h
          subst h
          exact ih2 ctx file.items ImportMap.new none _ _ hinvf hv
    -- visit_items
    · intro ctx items imports err st r hinv h
      cases items with
      | nil =>
        simp only [visit_items, Except.ok.injEq] at h
        subst h
        exact hinv
      | cons item rest =>
        cases item with
        | useItem tree =>
          rcases hp : process_use_tree ctx.fs ctx.manifest ctx.entry_file tree [] imports
            with ⟨m2, e2⟩
          match e2 with
          | some (.panicE m) =>
            simp only [visit_items, hp] at h
            simp at h
          | some .fuelOut =>
            simp only [visit_items, hp] at h
            simp at h
          | some (.errE m) =>
            simp only [visit_items, hp] at h
            exact ih2 ctx rest m2 (some m) st r hinv h
          | none =>
            simp only [visit_items, hp] at h
            exact ih2 ctx rest m2 err st r hinv h
        | fnItem fdef =>
          cases hep : ctx.entrypoint with
          | methodCall ts ms =>
            simp only [visit_items, hep] at h
            exact ih2 ctx rest imports err st r hinv h
          | func s =>
            simp only [visit_items, hep] at h
            by_cases hs : s = fdef.ident
            · rw [if_pos hs] at h
              by_cases hck : containsKey st.nodes_map
                  (resolve_node_key ctx.entry_file (.func s)) = true
              · rw [if_pos hck] at h
                exact ih2 ctx rest imports err st r hinv h
              · rw [if_neg hck] at h
                have hckf : containsKey st.nodes_map
                    (resolve_node_key ctx.entry_file (.func s)) = false :=
                  eq_false_of_ne_true hck
                have hinv2 := registerNode_inv st
                  (resolve_node_key ctx.entry_file (.func s)) (CallNode.ofItemFn fdef)
                  ctx.parent_node_key hckf hinv
                cases hb : fcb_build_core f ctx imports
                    (.fnNode fdef (resolve_node_key ctx.entry_file (.func s)))
                    (ctx.depth + 1)
                    (registerNode st (resolve_node_key ctx.entry_file (.func s))
                      (CallNode.ofItemFn fdef) ctx.parent_node_key) with
                | error e =>
                  simp only [hb] at h
                  simp at h
                | ok pr =>
                  obtain ⟨w2, st3⟩ := pr
                  have hinv3 : GraphInv st3 :=
                    ih3 ctx imports _ _ _ (w2, st3) hinv2 hb
                  cases w2 with
                  | some m =>
                    simp only [hb] at h
                    exact ih2 ctx rest imports (some m) st3 r hinv3 h
                  | none =>
                    simp only [hb] at h
                    exact ih2 ctx rest imports err st3 r hinv3 h
            · rw [if_neg hs] at h
              exact ih2 ctx rest imports err st r hinv h
        | implItem ib =>
          cases hep : ctx.entrypoint with
          | func s =>
            simp only [visit_items, hep] at h
            exact ih2 ctx rest imports err st r hinv h
          | methodCall ts ms =>
            simp only [visit_items, hep] at h
            cases hlast : ib.self_ty.getLast? with
            | none =>
              simp only [hlast] at h
              exact ih2 ctx rest imports err st r hinv h
            | some l =>
              simp only [hlast] at h
              by_cases hl : l = ts
              · rw [if_pos hl] at h
                cases hfind : find_impl_method ib.items ms with
                | none =>
                  simp only [hfind] at h
                  exact ih2 ctx rest imports err st r hinv h
                | some method_node =>
                  simp only [hfind] at h
                  by_cases hck : containsKey st.nodes_map
                      ((rust_replace (joinColons ctx.entry_file) ".rs" "")
                        ++ "::" ++ ts ++ "::" ++ ms) = true
                  · rw [if_pos hck] at h
                    exact ih2 ctx rest imports err st r hinv h
                  · rw [if_neg hck] at h
                    have hckf := eq_false_of_ne_true hck
                    have hinv2 := registerNode_inv st
                      ((rust_replace (joinColons ctx.entry_file) ".rs" "")
                        ++ "::" ++ ts ++ "::" ++ ms)
                      (CallNode.ofImplMethod method_node ib) ctx.parent_node_key hckf hinv
                    cases hb : fcb_build_core f ctx imports
                        (.methodNode method_node ib
                          ((rust_replace (joinColons ctx.entry_file) ".rs" "")
                            ++ "::" ++ ts ++ "::" ++ ms)) (ctx.depth + 1)
                        (registerNode st
                          ((rust_replace (joinColons ctx.entry_file) ".rs" "")
                            ++ "::" ++ ts ++ "::" ++ ms)
                          (CallNode.ofImplMethod method_node ib) ctx.parent_node_key) with
                    | error e =>
                      simp only [hb] at h
                      simp at h
                    | ok pr =>
                      obtain ⟨w2, st3⟩ := pr
                      have hinv3 : GraphInv st3 :=
                        ih3 ctx imports _ _ _ (w2, st3) hinv2 hb
                      cases w2 with
                      | some m =>
                        simp only [hb] at h
                        exact ih2 ctx rest imports (some m) st3 r hinv3 h
                      | none =>
                        simp only [hb] at h
                        exact ih2 ctx rest imports err st3 r hinv3 h
              · rw [if_neg hl] at h
                exact ih2 ctx rest imports err st r hinv h
    -- fcb_build_core
    · intro ctx imports parent wdepth st r hinv h
      simp only [fcb_build_core] at h
      exact ih4 ctx imports parent wdepth parent.block none st r hinv h
    -- fcb_walk_exprs
    · intro ctx imports parent wdepth es werr st r hinv h
      cases es with
      | nil =>
        simp only [fcb_walk_exprs, Except.ok.injEq] at h
        subst h
        exact hinv
      | cons e rest =>
        simp only [fcb_walk_exprs] at h
        cases he : fcb_walk_expr f ctx imports parent wdepth e werr st with
        | error er =>
          simp only [he] at h
          simp at h
        | ok pr =>
          obtain ⟨w2, s2⟩ := pr
          have hinv2 : GraphInv s2 := ih5 ctx imports parent wdepth e werr st (w2, s2) hinv he
          simp only [he] at h
          exact ih4 ctx imports parent wdepth rest w2 s2 r hinv2 h
    -- fcb_walk_expr
    · intro ctx imports parent wdepth e werr st r hinv h
      cases e with
      | pathE segs sp =>
        simp only [fcb_walk_expr, Except.ok.injEq] at h
        subst h
        exact hinv
      | methodCallE recv mname args sp =>
        simp only [fcb_walk_expr] at h
        cases hr : fcb_walk_expr f ctx imports parent wdepth recv werr st with
        | error er =>
          simp only [hr] at h
          simp at h
        | ok pr =>
          obtain ⟨w2, s2⟩ := pr
          have hinv2 : GraphInv s2 :=
            ih5 ctx imports parent wdepth recv werr st (w2, s2) hinv hr
          simp only [hr] at h
          exact ih4 ctx imports parent wdepth args w2 s2 r hinv2 h
      | callE fe args sp =>
        have hsub : ∀ (w0 : Option String) (s0 : BuildState), GraphInv s0 →
            (match fcb_walk_expr f ctx imports parent wdepth fe w0 s0 with
              | Except.error er => Except.error er
              | Except.ok (w3, s3) => fcb_walk_exprs f ctx imports parent wdepth args w3 s3)
              = .ok r → GraphInv r.2 := by
          intro w0 s0 hinv0 hh
          cases hf2 : fcb_walk_expr f ctx imports parent wdepth fe w0 s0 with
          | error er =>
            simp only [hf2] at hh
            simp at hh
          | ok pr =>
            obtain ⟨w3, s3⟩ := pr
            have hinv3 : GraphInv s3 :=
              ih5 ctx imports parent wdepth fe w0 s0 (w3, s3) hinv0 hf2
            simp only [hf2] at hh
            exact ih4 ctx imports parent wdepth args w3 s3 r hinv3 hh
        cases fe with
        | callE f2 a2 sp2 =>
          simp only [fcb_walk_expr] at h
          exact hsub werr st hinv h
        | methodCallE r2 m2 a2 sp2 =>
          simp only [fcb_walk_expr] at h
          exact hsub werr st hinv h
        | pathE segments psp =>
          cases hpi : pathGetIdent segments with
          | some ident =>
            simp only [fcb_walk_expr, hpi] at h
            cases hh : fcb_handle_fn_call f ctx imports parent wdepth ident
                (CallNode.ofExprPathIdent ident psp) werr st with
            | error er =>
              simp only [hh] at h
              simp at h
            | ok pr =>
              obtain ⟨w2, s2⟩ := pr
              have hinv2 : GraphInv s2 :=
                ih7 ctx imports parent wdepth ident _ werr st (w2, s2) hinv hh
              simp only [hh] at h
              exact hsub w2 s2 hinv2 h
          | none =>
            match segments with
            | [] =>
              simp only [fcb_walk_expr, hpi] at h
              exact hsub werr st hinv h
            | [a] => simp [pathGetIdent] at hpi
            | a :: b :: c :: t =>
              simp only [fcb_walk_expr, hpi] at h
              exact hsub werr st hinv h
            | [a, b] =>
              simp only [fcb_walk_expr, hpi] at h
              by_cases ha : a = "Self"
              · rw [if_pos ha] at h
                cases parent with
                | fnNode f0 k0 =>
                  simp only at h
                  exact hsub werr st hinv h
                | methodNode mi ibl k0 =>
                  simp only [ParentNode.node_key] at h
                  cases hl : self_call_loop f ctx imports (.methodNode mi ibl k0) wdepth
                      ibl ibl.items b k0 werr st with
                  | error er =>
                    simp only [hl] at h
                    simp at h
                  | ok tr =>
                    obtain ⟨flag, w2, s2⟩ := tr
                    have hinv2 : GraphInv s2 :=
                      ih6 ctx imports (.methodNode mi ibl k0) wdepth ibl ibl.items b k0
                        werr st (flag, w2, s2) hinv hl
                    cases flag with
                    | true =>
                      simp only [hl, Except.ok.injEq] at h
                      subst h
                      exact hinv2
                    | false =>
                      simp only [hl] at h
                      exact hsub w2 s2 hinv2 h
              · rw [if_neg ha] at h
                cases hg : imports.get a with
                | none =>
                  simp only [hg] at h
                  exact hsub werr st hinv h
                | some imp =>
                  cases imp with
                  | externalImp e0 =>
                    simp only [hg] at h
                    exact hsub werr st hinv h
                  | localImp li =>
                    simp only [hg] at h
                    cases hb : cgb_build_core f
                        { fs := ctx.fs, manifest := ctx.manifest
                          entry_file := li.module_file_path
                          entrypoint := .methodCall a b
                          parent_node_key := some parent.node_key
                          depth := wdepth + 1 } st with
                    | error er =>
                      simp only [hb] at h
                      simp at h
                    | ok pr =>
                      obtain ⟨w2, s2⟩ := pr
                      have hinv2 : GraphInv s2 := ih1 _ st (w2, s2) hinv hb
                      cases w2 with
                      | some m =>
                        simp only [hb, Except.ok.injEq] at h
                        subst h
                        exact hinv2
                      | none =>
                        simp only [hb] at h
                        exact hsub werr s2 hinv2 h
    -- self_call_loop
    · intro ctx imports parent wdepth impl_block iitems method pnk werr st r hinv h
      cases iitems with
      | nil =>
        simp only [self_call_loop, Except.ok.injEq] at h
        subst h
        exact hinv
      | cons ii irest =>
        cases ii with
        | otherItem =>
          simp only [self_call_loop] at h
          exact ih6 ctx imports parent wdepth impl_block irest method pnk werr st r hinv h
        | fnItem method_node =>
          simp only [self_call_loop] at h
          by_cases hmn : method_node.ident = method
          · rw [if_pos hmn] at h
            by_cases hck : containsKey st.nodes_map
                ((rust_replace (joinColons ctx.entry_file) ".rs" "") ++ "::" ++
                  (match ctx.entrypoint with
                   | .func f2 => f2
                   | .methodCall target_struct m2 => target_struct ++ "::" ++ m2)) = true
            · rw [if_pos hck] at h
              simp only [Except.ok.injEq] at h
              subst h
              exact hinv
            · rw [if_neg hck] at h
              have hckf := eq_false_of_ne_true hck
              have hinv2 := registerNode_inv st _
                (CallNode.ofImplMethod method_node impl_block) (some pnk) hckf hinv
              cases hb : fcb_build_core f ctx imports
                  (.methodNode method_node impl_block
                    ((rust_replace (joinColons ctx.entry_file) ".rs" "") ++ "::" ++
                      (match ctx.entrypoint with
                       | .func f2 => f2
                       | .methodCall target_struct m2 => target_struct ++ "::" ++ m2)))
                  (wdepth + 1)
                  (registerNode st
                    ((rust_replace (joinColons ctx.entry_file) ".rs" "") ++ "::" ++
                      (match ctx.entrypoint with
                       | .func f2 => f2
                       | .methodCall target_struct m2 => target_struct ++ "::" ++ m2))
                    (CallNode.ofImplMethod method_node impl_block) (some pnk)) with
              | error er =>
                simp only [hb] at h
                simp at h
              | ok pr =>
                obtain ⟨w2, st3⟩ := pr
                have hinv3 : GraphInv st3 := ih3 ctx imports _ _ _ (w2, st3) hinv2 hb
                cases w2 with
                | some m =>
                  simp only [hb, Except.ok.injEq] at h
                  subst h
                  exact hinv3
                | none =>
                  simp only [hb, Except.ok.injEq] at h
                  subst h
                  exact hinv3
          · rw [if_neg hmn] at h
            exact ih6 ctx imports parent wdepth impl_block irest method pnk werr st r hinv h
    -- fcb_handle_fn_call
    · intro ctx imports parent wdepth ident cn werr st r hinv h
      simp only [fcb_handle_fn_call] at h
      cases hg : imports.get ident with
      | none =>
        simp only [hg, Except.ok.injEq] at h
        subst h
        exact hinv
      | some imp =>
        cases imp with
        | localImp li =>
          simp only [hg] at h
          cases hb : cgb_build_core f
              { fs := ctx.fs, manifest := ctx.manifest
                entry_file := li.module_file_path
                entrypoint := .func ident
                parent_node_key := some parent.node_key
                depth := wdepth + 1 } st with
          | error er =>
            simp only [hb] at h
            simp at h
          | ok pr =>
            obtain ⟨w2, s2⟩ := pr
            have hinv2 : GraphInv s2 := ih1 _ st (w2, s2) hinv hb
            cases w2 with
            | some m =>
              simp only [hb, Except.ok.injEq] at h
              subst h
              exact hinv2
            | none =>
              simp only [hb, Except.ok.injEq] at h
              subst h
              exact hinv2
        | externalImp e0 =>
          simp only [hg] at h
          by_cases hck : containsKey st.nodes_map e0.full_path = true
          · rw [if_pos hck] at h
            simp only [Except.ok.injEq] at h
            subst h
            exact hinv
          · rw [if_neg hck] at h
            have hckf := eq_false_of_ne_true hck
            simp only [Except.ok.injEq] at h
            subst h
            exact registerNode_inv st e0.full_path cn (some parent.node_key) hckf hinv

/-- Claim C3: at most one vertex per Node Key.  If the state starts with a
duplicate-free graph whose keys are all registered (in particular the
empty initial state), then after any successful build the graph still has
no duplicate vertex payloads: every insertion (function entry, method
entry, `Self::` intra-type call, external leaf) is guarded by the
registry. -/
theorem c3_no_duplicate_vertices :
    ∀ (fuel : Nat) (fs : Fsys) (manifest : Manifest) (ef : FsPath) (ep : EntryPoint)
      (pk : Option String) (d : Nat) (st st2 : BuildState),
      GraphInv st →
      cgb_build fuel fs manifest ef ep pk d st = .ok st2 →
      GraphInv st2 := by
  intro fuel fs manifest ef ep pk d st st2 hinv h
  simp only [cgb_build] at h
  cases hc : cgb_build_core fuel ⟨fs, manifest, ef, ep, pk, d⟩ st with
  | error e =>
    simp only [hc] at h
    simp at h
  | ok pr =>
    obtain ⟨w, s2⟩ := pr
    have hpres := (build_preserves_inv fuel).1 ⟨fs, manifest, ef, ep, pk, d⟩ st (w, s2)
      hinv hc
    cases w with
    | some m =>
      simp only [hc] at h
      simp at h
    | none =>
      simp only [hc, Except.ok.injEq] at h
      subst h
      exact hpres

/-- Witness for C3: the invariant holds for the concrete graph built from
the single-function fixture. -/
theorem c3_no_duplicate_vertices_witness : GraphInv mainOnlyFinalState :=
  c3_no_duplicate_vertices 10 fsMainOnly dmanifest ["src", "main.rs"] (.func "main")
    none 0 initState mainOnlyFinalState (by simp [GraphInv, initState]) (by decide)

end Docgen
